import Mathlib

/-!
# Verification of the stopped-clock firmware core (`src/firmware/src/main.cpp`)

Shallow embedding of the firmware's algorithmic core:

* the word-wrap routines `wrapText` (fixed-metrics) and `wrapTextForFont`
  (measured widths, parameterised over the width measurer);
* the two descending font-size searches (`calculateOptimalLayout` for the
  built-in-font fallback, and the poem-path search inside `renderPoemText`);
* the circular time matcher `findClockImage`;
* the catalog fetch `fetchClockIndex` (HTTP/JSON outcomes abstracted into a
  response datatype, the parse loop modelled faithfully);
* the coordinator `updateDisplay`;
* the `loop()` button state machine (debounce, click counting, note
  dismissal, note timeout, periodic refresh).

Modelling conventions: Arduino `String` text is `List Char`; array-plus-count
output buffers are Lean lists; `millis()` timestamps are `Nat` (the firmware
compares `unsigned long` differences, which agree with truncated `Nat`
subtraction for the monotone in-range traces all temporal theorems assume,
i.e. below the 32-bit wrap at ~49.7 days of uptime); C `int` quantities that
can go negative (time codes, heights with `lineCount - 1`) are `Int`.
External collaborators (width measurer, HTTP, clock, renderer) are explicit
parameters, as the spec's §6 contracts prescribe.
-/

/-! ## Text wrapping (`wrapText`, main.cpp lines 847-881) -/

/-- `text.substring(a, b)` on character lists. -/
def sliceChars (text : List Char) (a b : Nat) : List Char :=
  (text.drop a).take (b - a)

/-- Number of leading spaces of a character list. -/
def countSpaces : List Char → Nat
  | [] => 0
  | c :: rest => if c = ' ' then countSpaces rest + 1 else 0

/-- The `while (pos < text.length() && text.charAt(pos) == ' ') pos++;` loop:
skip consecutive spaces starting at `pos`. -/
def skipSpaces (text : List Char) (pos : Nat) : Nat :=
  pos + countSpaces (text.drop pos)

/-- The backwards scan
`while (breakPos > pos && text.charAt(breakPos) != ' ') breakPos--;`:
returns the largest index in `(pos, bp]` holding a space, or `pos` if none. -/
def findSpaceDown (text : List Char) (pos : Nat) : Nat → Nat
  | 0 => 0
  | bp + 1 =>
    if bp + 1 ≤ pos then bp + 1
    else if text[bp + 1]? = some ' ' then bp + 1
    else findSpaceDown text pos bp

/-- The body of `wrapText` (main.cpp 847-881): greedy wrap at
`maxCharsPerLine` characters, breaking at the last space in range, hard
break when none, emitting at most `maxLines` lines (the loop runs while
`lineCount < maxLines`, so text needing more lines is silently dropped). -/
def wrapTextAux (text : List Char) (maxCharsPerLine : Nat) : Nat → Nat → List (List Char)
  | _, 0 => []
  | pos, ml + 1 =>
    if pos < text.length then
      if text.length - pos ≤ maxCharsPerLine then
        [text.drop pos]
      else
        let bp0 := findSpaceDown text pos (pos + maxCharsPerLine)
        let breakPos := if bp0 = pos then pos + maxCharsPerLine else bp0
        sliceChars text pos breakPos ::
          wrapTextAux text maxCharsPerLine (skipSpaces text breakPos) ml
    else []

/-- `wrapText(text, maxCharsPerLine, outLines, maxLines)`: the list of lines
written to `outLines` (its length is the returned line count). -/
def wrapText (text : List Char) (maxCharsPerLine maxLines : Nat) : List (List Char) :=
  wrapTextAux text maxCharsPerLine 0 maxLines

/-- Joining lines with single spaces (the spec's round-trip operation). -/
def joinSpace : List (List Char) → List Char
  | [] => []
  | [l] => l
  | l :: ls => l ++ ' ' :: joinSpace ls

/-! ## Measured wrapping (`wrapTextForFont`, main.cpp lines 957-990)

`getTextWidth` calls into OpenFontRender, an external collaborator; the
wrapper is parameterised over that width measurer. -/

/-- `String.lastIndexOf(' ')`: the largest index of a space, if any. -/
def lastSpaceIdx : List Char → Option Nat
  | [] => none
  | c :: rest =>
    match lastSpaceIdx rest with
    | some i => some (i + 1)
    | none => if c = ' ' then some 0 else none

/-- The shrink loop of `wrapTextForFont`:
`while (getTextWidth(testLine, fontSize) > maxWidth && endPos > pos + 1)`,
moving `endPos` back to the last space (when its index is positive) or by
one character.  `fuel` is an upper bound on the iteration count; every
iteration strictly decreases `endPos` while keeping it above `pos`, so
`fuel = endPos` never runs out at the call site. -/
def shrinkEnd (measure : List Char → Nat → Nat) (text : List Char)
    (maxWidth fontSize pos : Nat) : Nat → Nat → Nat
  | 0, endPos => endPos
  | fuel + 1, endPos =>
    let testLine := sliceChars text pos endPos
    if measure testLine fontSize > maxWidth ∧ pos + 1 < endPos then
      match lastSpaceIdx testLine with
      | some sp =>
        if 0 < sp then shrinkEnd measure text maxWidth fontSize pos fuel (pos + sp)
        else shrinkEnd measure text maxWidth fontSize pos fuel (endPos - 1)
      | none => shrinkEnd measure text maxWidth fontSize pos fuel (endPos - 1)
    else endPos

/-- The body of `wrapTextForFont` (main.cpp 957-990). -/
def wrapTextForFontAux (measure : List Char → Nat → Nat) (text : List Char)
    (maxWidth fontSize : Nat) : Nat → Nat → List (List Char)
  | _, 0 => []
  | pos, ml + 1 =>
    if pos < text.length then
      let endPos := shrinkEnd measure text maxWidth fontSize pos text.length text.length
      sliceChars text pos endPos ::
        wrapTextForFontAux measure text maxWidth fontSize (skipSpaces text endPos) ml
    else []

/-- `wrapTextForFont(text, maxWidth, fontSize, outLines, maxLines)` with the
width measurer passed explicitly. -/
def wrapTextForFont (measure : List Char → Nat → Nat) (text : List Char)
    (maxWidth fontSize maxLines : Nat) : List (List Char) :=
  wrapTextForFontAux measure text maxWidth fontSize 0 maxLines

/-! ## Layout searches (main.cpp 888-942 and 1033-1055) -/

/-- A computed layout: chosen font size and the wrapped lines
(`LayoutResult` of the spec, sans the derived pixel positions). -/
structure Layout where
  fontSize : Nat
  lines : List (List Char)
deriving Repr, DecidableEq

/-- Height of `lineCount` lines at built-in-font scale `f`:
`lineCount * (8*f) + (lineCount - 1) * (4*f)` with C `int` semantics
(the `lineCount - 1` factor is signed). -/
def fbTotalHeight (lineCount f : Nat) : Int :=
  (lineCount : Int) * (8 * f) + ((lineCount : Int) - 1) * (4 * f)

/-- Acceptance test of one candidate size in `calculateOptimalLayout`:
the zone is wide enough (`charsPerLine ≥ 8`) and the (at most 6) wrapped
lines fit the usable height. -/
def fbAccepts (fullText : List Char) (usableWidth usableHeight f : Nat) : Bool :=
  let charsPerLine := usableWidth / (f * 6)
  8 ≤ charsPerLine ∧
    fbTotalHeight (wrapText fullText charsPerLine 6).length f ≤ (usableHeight : Int)

/-- The descending search loop of `calculateOptimalLayout`: try each
candidate size, skip too-narrow ones, accept the first whose wrapped block
fits; if none is accepted keep the initial best
(`bestFontSize = 2`, `bestLines[0] = fullText`, one line). -/
def fbSearch (fullText : List Char) (usableWidth usableHeight : Nat) :
    List Nat → Layout
  | [] => ⟨2, [fullText]⟩
  | f :: rest =>
    let charsPerLine := usableWidth / (f * 6)
    if charsPerLine < 8 then fbSearch fullText usableWidth usableHeight rest
    else
      let ls := wrapText fullText charsPerLine 6
      if fbTotalHeight ls.length f ≤ (usableHeight : Int) then ⟨f, ls⟩
      else fbSearch fullText usableWidth usableHeight rest

/-- `calculateOptimalLayout` (main.cpp 888-942): usable area is 60% of the
zone, candidate sizes 5 down to 2. -/
def calculateOptimalLayout (fullText : List Char) (zoneW zoneH : Nat) : Layout :=
  fbSearch fullText (zoneW * 60 / 100) (zoneH * 60 / 100) [5, 4, 3, 2]

/-- `int lineHeight = fontSize * 1.3;` — for every font size the poem search
tries (multiples of 4 between 24 and 72) the double product truncates to
`f * 13 / 10`, which is how it is modelled. -/
def lineHeight13 (f : Nat) : Nat := f * 13 / 10

/-- The candidate sizes of `for (int fontSize = 72; fontSize >= 24; fontSize -= 4)`. -/
def ofrCandidates : List Nat := [72, 68, 64, 60, 56, 52, 48, 44, 40, 36, 32, 28, 24]

/-- Acceptance test of one candidate in the poem-path search
(main.cpp 1039-1054): the (truncated, at most 6) wrapped lines fit the
usable height, and their count is at most 6 (the second conjunct is vacuous
because `wrapTextForFont` is called with `maxLines = 6`). -/
def ofrAccepts (measure : List Char → Nat → Nat) (fullText : List Char)
    (usableWidth usableHeight f : Nat) : Bool :=
  let ls := wrapTextForFont measure fullText usableWidth f 6
  ls.length * lineHeight13 f ≤ usableHeight ∧ ls.length ≤ 6

/-- The descending search of `renderPoemText`'s OpenFontRender path:
first accepted candidate wins; if none is accepted keep
`bestFontSize = 24`, `bestLines[0] = fullText`, one line. -/
def ofrSearch (measure : List Char → Nat → Nat) (fullText : List Char)
    (usableWidth usableHeight : Nat) : List Nat → Layout
  | [] => ⟨24, [fullText]⟩
  | f :: rest =>
    let ls := wrapTextForFont measure fullText usableWidth f 6
    if ls.length * lineHeight13 f ≤ usableHeight ∧ ls.length ≤ 6 then ⟨f, ls⟩
    else ofrSearch measure fullText usableWidth usableHeight rest

/-- The poem-path layout computation of `renderPoemText` (main.cpp
1029-1055): usable area is 75% of the display zone, sizes 72 down to 24 in
steps of 4. -/
def renderPoemLayout (measure : List Char → Nat → Nat) (fullText : List Char)
    (displayW displayH : Nat) : Layout :=
  ofrSearch measure fullText (displayW * 75 / 100) (displayH * 75 / 100) ofrCandidates

/-! ## Time matcher (`findClockImage`, main.cpp 639-674) -/

/-- The wraparound adjustment applied to one absolute difference:
`wrapDiff = 1200 - diff; if (wrapDiff > 0 && wrapDiff < diff) diff = wrapDiff;`. -/
def wrapAdjust (diff : Int) : Int :=
  if 1200 - diff > 0 ∧ 1200 - diff < diff then 1200 - diff else diff

/-- The per-entry matching distance of `findClockImage`. -/
def timeDist (entry target : Int) : Int :=
  wrapAdjust (abs (entry - target))

/-- One catalog image record (`ClockImage`): url, optional explicit zone,
fallback strip name. -/
structure ClockImage where
  url : String
  zone : Option (Int × Int × Int × Int)
  strip : String
deriving Repr, DecidableEq

/-- One catalog entry (`TimeEntry`): time code plus its images. -/
structure TimeEntry where
  timeCode : Int
  images : List ClockImage
deriving Repr, DecidableEq

/-- The scan loop of `findClockImage`: linear scan tracking the strictly
smaller diff (`bestDiff` starts at 9999, `bestIndex` at `-1` = `none`),
breaking early on `diff == 0`. -/
def findBestAux (target : Int) : List TimeEntry → Nat → Option Nat → Int → Option Nat
  | [], _, bestIdx, _ => bestIdx
  | e :: rest, i, bestIdx, bestDiff =>
    let d := timeDist e.timeCode target
    let bestIdx' := if d < bestDiff then some i else bestIdx
    let bestDiff' := if d < bestDiff then d else bestDiff
    if d = 0 then bestIdx'
    else findBestAux target rest (i + 1) bestIdx' bestDiff'

/-- The entry-selection part of `findClockImage` (main.cpp 639-662): index of
the selected `TimeEntry`, `none` for the `nullptr` (NotFound) result.  The
subsequent uniformly-random pick among the entry's images consumes the
external `random()` source and does not affect which entry is selected. -/
def findBestIdx (catalog : List TimeEntry) (target : Int) : Option Nat :=
  findBestAux target catalog 0 none 9999

/-! ## Catalog fetch (`fetchClockIndex`, main.cpp 565-634) -/

/-- Outcome of the HTTP GET plus JSON parse of the clock index, as seen by
the parse loop: transport failure, malformed JSON, or a well-formed
document whose `times` array decodes to the given entries (string time
codes already passed through `atoi`). -/
inductive IndexResponse where
  | httpFail
  | badJson
  | ok (times : List TimeEntry)
deriving Repr, DecidableEq

/-- `fetchClockIndex` (main.cpp 565-634) acting on the catalog state
(`clockIndex` array plus `clockIndexCount`, modelled as the list of its
first `clockIndexCount` entries).  HTTP or JSON failure returns before
touching the catalog; a well-formed response first zeroes
`clockIndexCount` and then appends up to 200 entries of at most 5 images
each; the returned flag is `clockIndexCount > 0`. -/
def fetchClockIndex (resp : IndexResponse) (catalog : List TimeEntry) :
    List TimeEntry × Bool :=
  match resp with
  | .httpFail => (catalog, false)
  | .badJson => (catalog, false)
  | .ok times =>
    let newCatalog := (times.take 200).map fun e => ⟨e.timeCode, e.images.take 5⟩
    (newCatalog, decide (0 < newCatalog.length))

/-! ## Coordinator (`updateDisplay`, main.cpp 1358-1392) -/

/-- `to12HourFormat` (main.cpp 180-184). -/
def to12HourFormat (hour24 minute : Nat) : Int :=
  let hour12 := hour24 % 12
  let hour12 := if hour12 = 0 then 12 else hour12
  (hour12 : Int) * 100 + minute

/-- Coordinator state touched by `updateDisplay`: the render memo
`lastDisplayedTime`, the current poem text, and the (read-only here)
catalog. -/
structure CoordState where
  lastDisplayedTime : Int
  currentPoem : String
  catalog : List TimeEntry
deriving Repr, DecidableEq

/-- External collaborators consumed by one `updateDisplay` call: the clock
source (`getLocalTime`, `none` = unavailable), the poem source
(`fetchPoem`, `none` = any fetch failure), and whether the image
download + draw (`displayClockWithPoem`) succeeds. -/
structure CoordEnv where
  now : Option (Nat × Nat)
  poem : Option String
  renderOk : Bool

/-- Observable collaborator calls made by one `updateDisplay` run. -/
inductive CoordEffect where
  | fetchPoem
  | matchImage
  | render
deriving Repr, DecidableEq

/-- The placeholder poem substituted on fetch failure. -/
def placeholderPoem : String := "Time moves on / But clocks stand still"

/-- `updateDisplay` (main.cpp 1358-1392): skip if no clock; no-op if the
12-hour time code is unchanged; otherwise fetch the poem (placeholder on
failure), match an image (bail out keeping the memo if none), attempt the
render and record the memo only on success. -/
def updateDisplay (env : CoordEnv) (s : CoordState) : CoordState × List CoordEffect :=
  match env.now with
  | none => (s, [])
  | some (h, m) =>
    let timeCode12 := to12HourFormat h m
    if timeCode12 = s.lastDisplayedTime then (s, [])
    else
      let poem := match env.poem with
        | some p => p
        | none => placeholderPoem
      let s1 := { s with currentPoem := poem }
      match findBestIdx s1.catalog timeCode12 with
      | none => (s1, [.fetchPoem, .matchImage])
      | some _ =>
        if env.renderOk then
          ({ s1 with lastDisplayedTime := timeCode12 },
            [.fetchPoem, .matchImage, .render])
        else (s1, [.fetchPoem, .matchImage, .render])

/-! ## Button state machine and control loop (main.cpp 1463-1542, 516-560)

One `loop()` iteration is modelled as `loopTick`, split into the four
stages of the source: debounce/commit, click resolution, note timeout,
periodic refresh.  Inputs per tick: `now = millis()` and the GPIO reading
(`true` = HIGH = released, `false` = LOW = pressed).  Static collaborator
facts: `noteAvail` models `currentNote.length() > 0`, `fontsOk` models
`fontsLoaded` (gating `displayNoteFullScreen`), `likeOk` the result of
`likePoem()`. -/

/-- The mutable state read and written by the loop's button and refresh
sections. -/
structure LoopState where
  buttonState : Bool
  lastButtonReading : Bool
  lastDebounceTime : Nat
  lastClickTime : Nat
  clickCount : Nat
  waitingForDoubleClick : Bool
  showingNote : Bool
  noteDisplayTime : Nat
  lastCheck : Nat
deriving Repr, DecidableEq

/-- Observable actions of one loop iteration.  `primary` and `secondary`
are the click-window resolutions (`handleButtonClick` with 1 resp. ≥ 2
clicks); `dismissPress` is the immediate dismissal of a shown note by a
debounced press; `dismissTimeout` the 10 s auto-dismiss; `periodicRefresh`
the scheduled `updateDisplay` call of the final section. -/
inductive LoopEvent where
  | primary
  | secondary
  | dismissPress
  | dismissTimeout
  | periodicRefresh
deriving Repr, DecidableEq

/-- `handleButtonClick(clickCount)` followed by the caller's
`clickCount = 0; waitingForDoubleClick = false;` (main.cpp 516-560,
1507-1511).  A single click with a note shown hides it; with a note
available it shows the note (only if fonts loaded; `displayNoteFullScreen`
also resets the raw button state and stamps `noteDisplayTime`); two or
more clicks trigger the like, and on success with a note shown the note is
re-displayed. -/
def resolveClicks (noteAvail fontsOk likeOk : Bool) (now : Nat) (s : LoopState) :
    LoopState × List LoopEvent :=
  let clicks := s.clickCount
  let s0 := { s with clickCount := 0, waitingForDoubleClick := false }
  if clicks = 1 then
    if s0.showingNote then
      ({ s0 with showingNote := false }, [.primary])
    else if noteAvail then
      ({ s0 with showingNote := fontsOk,
                 noteDisplayTime := if fontsOk then now else s0.noteDisplayTime,
                 buttonState := true, lastButtonReading := true }, [.primary])
    else (s0, [.primary])
  else if 2 ≤ clicks then
    if likeOk ∧ s0.showingNote then
      ({ s0 with noteDisplayTime := now }, [.secondary])
    else (s0, [.secondary])
  else (s0, [])

/-- Stage 1 (main.cpp 1471-1504): debounce bookkeeping and, once the
reading has been stable longer than `DEBOUNCE_MS = 50`, commit a state
change; a committed press either dismisses a shown note immediately or
counts a click and (re)opens the `DOUBLE_CLICK_MS` window. -/
def debounceStep (s : LoopState) (now : Nat) (reading : Bool) :
    LoopState × List LoopEvent :=
  let ldt := if reading ≠ s.lastButtonReading then now else s.lastDebounceTime
  let s := { s with lastButtonReading := reading, lastDebounceTime := ldt }
  if now - s.lastDebounceTime > 50 then
    if reading ≠ s.buttonState then
      let s := { s with buttonState := reading }
      if reading = false then
        if s.showingNote then
          ({ s with showingNote := false, clickCount := 0,
                    waitingForDoubleClick := false }, [.dismissPress])
        else
          ({ s with clickCount := s.clickCount + 1, lastClickTime := now,
                    waitingForDoubleClick := true }, [])
      else (s, [])
    else (s, [])
  else (s, [])

/-- Stage 2 (main.cpp 1507-1511): resolve the pending click sequence once
the 400 ms window has elapsed. -/
def resolveStep (noteAvail fontsOk likeOk : Bool) (s : LoopState) (now : Nat) :
    LoopState × List LoopEvent :=
  if s.waitingForDoubleClick ∧ now - s.lastClickTime > 400 then
    resolveClicks noteAvail fontsOk likeOk now s
  else (s, [])

/-- Stage 3 (main.cpp 1515-1519): auto-dismiss a note shown for more than
10 s, but only while the button reads HIGH (released). -/
def timeoutStep (s : LoopState) (now : Nat) (reading : Bool) :
    LoopState × List LoopEvent :=
  if s.showingNote ∧ now - s.noteDisplayTime > 10000 ∧ reading = true then
    ({ s with showingNote := false }, [.dismissTimeout])
  else (s, [])

/-- Stage 4 (main.cpp 1522-1526): scheduled `updateDisplay` every 10 s,
skipped entirely while a note is shown. -/
def periodicStep (s : LoopState) (now : Nat) : LoopState × List LoopEvent :=
  if ¬s.showingNote ∧ 10000 ≤ now - s.lastCheck then
    ({ s with lastCheck := now }, [.periodicRefresh])
  else (s, [])

/-- One full `loop()` iteration (sections in source order). -/
def loopTick (noteAvail fontsOk likeOk : Bool) (s : LoopState) (now : Nat)
    (reading : Bool) : LoopState × List LoopEvent :=
  let r1 := debounceStep s now reading
  let r2 := resolveStep noteAvail fontsOk likeOk r1.1 now
  let r3 := timeoutStep r2.1 now reading
  let r4 := periodicStep r3.1 now
  (r4.1, r1.2 ++ r2.2 ++ r3.2 ++ r4.2)

/-- Running the loop over a trace of `(millis, reading)` samples. -/
def loopRun (noteAvail fontsOk likeOk : Bool) (s : LoopState) :
    List (Nat × Bool) → LoopState × List LoopEvent
  | [] => (s, [])
  | (now, r) :: rest =>
    let (s1, evs) := loopTick noteAvail fontsOk likeOk s now r
    let (s2, evs2) := loopRun noteAvail fontsOk likeOk s1 rest
    (s2, evs ++ evs2)

/-- A tick commits a debounced HIGH→LOW transition ("debounced press"):
the reading is LOW, stable for more than 50 ms, and differs from the
committed state. -/
def pressEdge (s : LoopState) (now : Nat) (reading : Bool) : Bool :=
  let ldt := if reading ≠ s.lastButtonReading then now else s.lastDebounceTime
  now - ldt > 50 ∧ reading ≠ s.buttonState ∧ reading = false

/-- The timestamps of the debounced presses a trace produces from a given
start state. -/
def pressEdges (noteAvail fontsOk likeOk : Bool) (s : LoopState) :
    List (Nat × Bool) → List Nat
  | [] => []
  | (now, r) :: rest =>
    (if pressEdge s now r then [now] else []) ++
      pressEdges noteAvail fontsOk likeOk
        (loopTick noteAvail fontsOk likeOk s now r).1 rest

/-! ## Facts about the circular distance -/

theorem wrapAdjust_nonneg {d : Int} (hd : 0 ≤ d) : 0 ≤ wrapAdjust d := by
  unfold wrapAdjust; split_ifs <;> omega

theorem timeDist_nonneg (a b : Int) : 0 ≤ timeDist a b :=
  wrapAdjust_nonneg (abs_nonneg _)

theorem wrapAdjust_le (d : Int) : wrapAdjust d ≤ d := by
  unfold wrapAdjust; split_ifs <;> omega

theorem timeDist_lt_sentinel {a b : Int} (ha : 100 ≤ a) (ha' : a ≤ 1259)
    (hb : 100 ≤ b) (hb' : b ≤ 1259) : timeDist a b < 9999 := by
  have h1 : |a - b| ≤ 1159 := by rw [abs_le]; omega
  calc timeDist a b ≤ |a - b| := wrapAdjust_le _
    _ < 9999 := by omega

theorem timeDist_eq_zero_iff (a b : Int) : timeDist a b = 0 ↔ a = b := by
  unfold timeDist wrapAdjust
  have h0 : 0 ≤ |a - b| := abs_nonneg _
  have h2 : |a - b| = 0 ↔ a = b := by rw [abs_eq_zero, sub_eq_zero]
  split_ifs with h
  · constructor
    · intro hz; omega
    · intro hab; rw [← h2] at hab; omega
  · exact h2

theorem timeDist_self (a : Int) : timeDist a a = 0 := by
  rw [timeDist_eq_zero_iff]


theorem findBestAux_cons (target : Int) (e : TimeEntry) (rest : List TimeEntry)
    (i : Nat) (bestIdx : Option Nat) (bestDiff : Int) :
    findBestAux target (e :: rest) i bestIdx bestDiff =
      if timeDist e.timeCode target = 0 then
        (if timeDist e.timeCode target < bestDiff then some i else bestIdx)
      else findBestAux target rest (i + 1)
        (if timeDist e.timeCode target < bestDiff then some i else bestIdx)
        (if timeDist e.timeCode target < bestDiff then timeDist e.timeCode target
          else bestDiff) := rfl

/-- Invariant-carrying characterisation of the scan loop. -/
theorem findBestAux_min (target : Int) :
    ∀ (entries seen : List TimeEntry) (bestIdx : Option Nat) (bestDiff : Int),
    (∀ x ∈ seen ++ entries, timeDist x.timeCode target < 9999) →
    0 < bestDiff →
    (bestIdx = none ∧ bestDiff = 9999 ∧ seen = [] ∨
      ∃ k ek, bestIdx = some k ∧ seen[k]? = some ek ∧
        timeDist ek.timeCode target = bestDiff ∧
        (∀ x ∈ seen, bestDiff ≤ timeDist x.timeCode target) ∧
        (∀ x ∈ seen.take k, bestDiff < timeDist x.timeCode target)) →
    seen ++ entries ≠ [] →
    ∃ i e, findBestAux target entries seen.length bestIdx bestDiff = some i ∧
      (seen ++ entries)[i]? = some e ∧
      (∀ x ∈ seen ++ entries, timeDist e.timeCode target ≤ timeDist x.timeCode target) ∧
      (∀ x ∈ (seen ++ entries).take i, timeDist e.timeCode target < timeDist x.timeCode target) := by
  intro entries
  induction entries with
  | nil =>
    intro seen bestIdx bestDiff _ hpos hinv hne
    rcases hinv with ⟨_, _, rfl⟩ | ⟨k, ek, rfl, hk, hd, hmin, hfirst⟩
    · simp at hne
    · refine ⟨k, ek, rfl, ?_, ?_, ?_⟩ <;> simp only [List.append_nil]
      · exact hk
      · intro x hx; rw [hd]; exact hmin x hx
      · intro x hx; rw [hd]; exact hfirst x hx
  | cons e rest ih =>
    intro seen bestIdx bestDiff hsmall hpos hinv hne
    rw [findBestAux_cons]
    have hd0 : 0 ≤ timeDist e.timeCode target := timeDist_nonneg _ _
    have hseenmin : ∀ x ∈ seen, bestDiff ≤ timeDist x.timeCode target := by
      rcases hinv with ⟨_, _, rfl⟩ | ⟨k, ek, _, hk, hdk, hmin, hfirst⟩
      · intro x hx; simp at hx
      · exact hmin
    by_cases hd : timeDist e.timeCode target = 0
    · rw [if_pos hd, if_pos (by omega)]
      refine ⟨seen.length, e, rfl, ?_, ?_, ?_⟩
      · rw [List.getElem?_append_right (le_refl seen.length)]
        simp
      · intro x hx
        rw [hd]
        exact timeDist_nonneg _ _
      · intro x hx
        rw [List.take_left] at hx
        rw [hd]
        have := hseenmin x hx
        omega
    · rw [if_neg hd]
      by_cases hlt : timeDist e.timeCode target < bestDiff
      · rw [if_pos hlt, if_pos hlt]
        have hsmall' : ∀ x ∈ (seen ++ [e]) ++ rest, timeDist x.timeCode target < 9999 := by
          intro x hx; apply hsmall; simpa [List.append_assoc] using hx
        have hinv' : (some seen.length = none ∧ timeDist e.timeCode target = 9999 ∧ seen ++ [e] = [] ∨
            ∃ k ek, some seen.length = some k ∧ (seen ++ [e])[k]? = some ek ∧
              timeDist ek.timeCode target = timeDist e.timeCode target ∧
              (∀ x ∈ seen ++ [e], timeDist e.timeCode target ≤ timeDist x.timeCode target) ∧
              (∀ x ∈ (seen ++ [e]).take k, timeDist e.timeCode target < timeDist x.timeCode target)) := by
          refine Or.inr ⟨seen.length, e, rfl, ?_, rfl, ?_, ?_⟩
          · rw [List.getElem?_append_right (le_refl seen.length)]; simp
          · intro x hx
            rcases List.mem_append.mp hx with hx | hx
            · have := hseenmin x hx; omega
            · simp at hx; subst hx; exact le_refl _
          · intro x hx
            rw [List.take_left] at hx
            have := hseenmin x hx; omega
        have key := ih (seen ++ [e]) (some seen.length) (timeDist e.timeCode target)
          hsmall' (by omega) hinv' (by simp)
        rw [List.length_append, List.length_cons, List.length_nil] at key
        simpa [List.append_assoc] using key
      · rw [if_neg hlt, if_neg hlt]
        rcases hinv with ⟨_, hbd, rfl⟩ | ⟨k, ek, rfl, hk, hdk, hmin, hfirst⟩
        · exfalso
          have := hsmall e (by simp)
          omega
        · have hklt : k < seen.length := by
            by_contra hcon
            rw [List.getElem?_eq_none (by omega)] at hk
            exact Option.noConfusion hk
          have hsmall' : ∀ x ∈ (seen ++ [e]) ++ rest, timeDist x.timeCode target < 9999 := by
            intro x hx; apply hsmall; simpa [List.append_assoc] using hx
          have hinv' : ((some k : Option Nat) = none ∧ bestDiff = 9999 ∧ seen ++ [e] = [] ∨
              ∃ k' ek', (some k : Option Nat) = some k' ∧ (seen ++ [e])[k']? = some ek' ∧
                timeDist ek'.timeCode target = bestDiff ∧
                (∀ x ∈ seen ++ [e], bestDiff ≤ timeDist x.timeCode target) ∧
                (∀ x ∈ (seen ++ [e]).take k', bestDiff < timeDist x.timeCode target)) := by
            refine Or.inr ⟨k, ek, rfl, ?_, hdk, ?_, ?_⟩
            · rw [List.getElem?_append_left hklt]; exact hk
            · intro x hx
              rcases List.mem_append.mp hx with hx | hx
              · exact hmin x hx
              · simp at hx; subst hx; omega
            · intro x hx
              rw [List.take_append_of_le_length (by omega)] at hx
              exact hfirst x hx
          have key := ih (seen ++ [e]) (some k) bestDiff hsmall' hpos hinv' (by simp)
          rw [List.length_append, List.length_cons, List.length_nil] at key
          simpa [List.append_assoc] using key

/-- **C5.** For time codes `a, b ∈ [100, 1259]`, the per-entry matching
distance of `findClockImage` (absolute difference followed by the
wraparound adjustment) equals `min (|a - b|) (1200 - |a - b|)` and is
symmetric in `a` and `b`. -/
theorem claim_C5_circular_distance (a b : Int) (ha : 100 ≤ a) (ha' : a ≤ 1259)
    (hb : 100 ≤ b) (hb' : b ≤ 1259) :
    timeDist a b = min (|a - b|) (1200 - |a - b|) ∧ timeDist a b = timeDist b a := by
  constructor
  · have h0 : 0 ≤ |a - b| := abs_nonneg _
    have h1 : |a - b| ≤ 1159 := by rw [abs_le]; omega
    unfold timeDist wrapAdjust
    split_ifs with h <;> omega
  · unfold timeDist; rw [abs_sub_comm]

/-- Witness for C5 at `a = 100`, `b = 1155`. -/
theorem claim_C5_circular_distance_witness :
    timeDist 100 1155 = min (|(100 : Int) - 1155|) (1200 - |(100 : Int) - 1155|) ∧
      timeDist 100 1155 = timeDist 1155 100 :=
  claim_C5_circular_distance 100 1155 (by decide) (by decide) (by decide) (by decide)

/-- **C6.** `findClockImage` selects the first entry in catalog order
attaining the minimal circular distance; an exact match is always selected
with distance 0; for catalog `[{100}, {700}]` and target `1155` the
selected entry is the one with code 100 (index 0). -/
theorem claim_C6_nearest_entry_selection :
    (∀ (catalog : List TimeEntry) (target : Int), catalog ≠ [] →
      (∀ x ∈ catalog, 100 ≤ x.timeCode ∧ x.timeCode ≤ 1259) →
      100 ≤ target → target ≤ 1259 →
      ∃ i e, findBestIdx catalog target = some i ∧ catalog[i]? = some e ∧
        (∀ x ∈ catalog, timeDist e.timeCode target ≤ timeDist x.timeCode target) ∧
        (∀ x ∈ catalog.take i, timeDist e.timeCode target < timeDist x.timeCode target)) ∧
    (∀ (catalog : List TimeEntry) (target : Int) (e0 : TimeEntry), e0 ∈ catalog →
      e0.timeCode = target →
      (∀ x ∈ catalog, 100 ≤ x.timeCode ∧ x.timeCode ≤ 1259) →
      100 ≤ target → target ≤ 1259 →
      ∃ i e, findBestIdx catalog target = some i ∧ catalog[i]? = some e ∧
        e.timeCode = target ∧ timeDist e.timeCode target = 0) ∧
    findBestIdx [⟨100, []⟩, ⟨700, []⟩] 1155 = some 0 := by
  have part1 : ∀ (catalog : List TimeEntry) (target : Int), catalog ≠ [] →
      (∀ x ∈ catalog, 100 ≤ x.timeCode ∧ x.timeCode ≤ 1259) →
      100 ≤ target → target ≤ 1259 →
      ∃ i e, findBestIdx catalog target = some i ∧ catalog[i]? = some e ∧
        (∀ x ∈ catalog, timeDist e.timeCode target ≤ timeDist x.timeCode target) ∧
        (∀ x ∈ catalog.take i, timeDist e.timeCode target < timeDist x.timeCode target) := by
    intro catalog target hne hrange ht ht'
    have key := findBestAux_min target catalog [] none 9999
      (by
        intro x hx
        simp only [List.nil_append] at hx
        obtain ⟨h1, h2⟩ := hrange x hx
        exact timeDist_lt_sentinel h1 h2 ht ht')
      (by omega)
      (Or.inl ⟨rfl, rfl, rfl⟩)
      (by simpa using hne)
    simpa using key
  refine ⟨part1, ?_, ?_⟩
  · intro catalog target e0 he0 he0t hrange ht ht'
    obtain ⟨i, e, hfind, hget, hmin, _⟩ :=
      part1 catalog target (List.ne_nil_of_mem he0) hrange ht ht'
    have h1 : timeDist e.timeCode target ≤ timeDist e0.timeCode target := hmin e0 he0
    rw [he0t, timeDist_self] at h1
    have h2 : 0 ≤ timeDist e.timeCode target := timeDist_nonneg _ _
    have h3 : timeDist e.timeCode target = 0 := le_antisymm h1 h2
    exact ⟨i, e, hfind, hget, (timeDist_eq_zero_iff _ _).mp h3, h3⟩
  · decide

/-- Witness for C6: a concrete two-entry catalog and target. -/
theorem claim_C6_nearest_entry_selection_witness :
    ∃ i e, findBestIdx [⟨100, []⟩, ⟨655, []⟩] 655 = some i ∧
      ([⟨100, []⟩, ⟨655, []⟩] : List TimeEntry)[i]? = some e ∧
      e.timeCode = 655 ∧ timeDist e.timeCode 655 = 0 :=
  claim_C6_nearest_entry_selection.2.1 [⟨100, []⟩, ⟨655, []⟩] 655 ⟨655, []⟩
    (by decide) (by decide) (by decide) (by decide) (by decide)

/-- **C9.** An empty catalog yields NotFound (`nullptr`) from
`findClockImage` for every target, and in that case `updateDisplay`
performs no render and leaves the render memo `lastDisplayedTime`
unchanged (the previously displayed content is retained). -/
theorem claim_C9_empty_catalog_not_found :
    (∀ target : Int, findBestIdx [] target = none) ∧
    (∀ (env : CoordEnv) (s : CoordState), s.catalog = [] →
      (updateDisplay env s).1.lastDisplayedTime = s.lastDisplayedTime ∧
      CoordEffect.render ∉ (updateDisplay env s).2) := by
  refine ⟨fun _ => rfl, ?_⟩
  intro env s hcat
  unfold updateDisplay
  match henv : env.now with
  | none => exact ⟨rfl, by simp⟩
  | some (h, m) =>
    dsimp only
    by_cases ht : to12HourFormat h m = s.lastDisplayedTime
    · rw [if_pos ht]
      exact ⟨rfl, by simp⟩
    · rw [if_neg ht]
      have : findBestIdx ({ s with currentPoem := match env.poem with
          | some p => p
          | none => placeholderPoem } : CoordState).catalog (to12HourFormat h m) = none := by
        simp only [hcat]
        rfl
      rw [this]
      refine ⟨rfl, ?_⟩
      intro hmem
      simp at hmem

/-- Witness for C9 at a concrete environment and state. -/
theorem claim_C9_empty_catalog_not_found_witness :
    (updateDisplay ⟨some (9, 30), some "p", true⟩ ⟨-1, "", []⟩).1.lastDisplayedTime =
        (⟨-1, "", []⟩ : CoordState).lastDisplayedTime ∧
      CoordEffect.render ∉ (updateDisplay ⟨some (9, 30), some "p", true⟩ ⟨-1, "", []⟩).2 :=
  claim_C9_empty_catalog_not_found.2 ⟨some (9, 30), some "p", true⟩ ⟨-1, "", []⟩ rfl

/-- **C7.** `updateDisplay` is idempotent in the time code: if a call with
clock reading `(h, m)` performs a successful render, a second call with
the clock still reading `(h, m)` performs no fetch, no match, no render,
and leaves the coordinator state unchanged. -/
theorem claim_C7_tick_idempotent (env1 env2 : CoordEnv) (s : CoordState) (h m : Nat)
    (h1 : env1.now = some (h, m)) (h2 : env2.now = some (h, m))
    (hrok : env1.renderOk = true)
    (hrend : CoordEffect.render ∈ (updateDisplay env1 s).2) :
    updateDisplay env2 (updateDisplay env1 s).1 = ((updateDisplay env1 s).1, []) := by
  have hmemo : (updateDisplay env1 s).1.lastDisplayedTime = to12HourFormat h m := by
    unfold updateDisplay at hrend ⊢
    rw [h1] at hrend ⊢
    dsimp only at hrend ⊢
    by_cases ht : to12HourFormat h m = s.lastDisplayedTime
    · rw [if_pos ht] at hrend
      simp at hrend
    · rw [if_neg ht] at hrend ⊢
      cases hfind : findBestIdx ({ s with currentPoem := match env1.poem with
          | some p => p
          | none => placeholderPoem } : CoordState).catalog (to12HourFormat h m) with
      | none =>
        rw [hfind] at hrend
        dsimp only at hrend
        simp at hrend
      | some k =>
        simp [hrok]
  conv_lhs => rw [updateDisplay]
  rw [h2]
  dsimp only
  rw [if_pos hmemo.symm]

/-- Witness for C7: concrete environment, catalog `[{930}]`, clock 09:30. -/
theorem claim_C7_tick_idempotent_witness :
    updateDisplay ⟨some (9, 30), some "p", true⟩
        (updateDisplay ⟨some (9, 30), some "p", true⟩ ⟨-1, "", [⟨930, []⟩]⟩).1 =
      ((updateDisplay ⟨some (9, 30), some "p", true⟩ ⟨-1, "", [⟨930, []⟩]⟩).1, []) :=
  claim_C7_tick_idempotent ⟨some (9, 30), some "p", true⟩ ⟨some (9, 30), some "p", true⟩
    ⟨-1, "", [⟨930, []⟩]⟩ 9 30 rfl rfl rfl (by decide)

/-- **C2 (amended).** HTTP failure and malformed JSON leave the catalog
untouched and report failure; a well-formed response replaces the catalog
wholesale with its parsed entries (up to 200 entries of up to 5 images),
succeeding exactly when that list is non-empty.  Consequently a
well-formed response with zero time entries reports failure but leaves the
catalog empty rather than keeping the prior one (see the counterexample). -/
theorem claim_C2_catalog_replacement :
    (∀ catalog : List TimeEntry,
      fetchClockIndex .httpFail catalog = (catalog, false) ∧
      fetchClockIndex .badJson catalog = (catalog, false)) ∧
    (∀ (catalog : List TimeEntry) (times : List TimeEntry),
      (fetchClockIndex (.ok times) catalog).1 =
        (times.take 200).map (fun e => ⟨e.timeCode, e.images.take 5⟩) ∧
      ((fetchClockIndex (.ok times) catalog).2 = true ↔
        (fetchClockIndex (.ok times) catalog).1 ≠ [])) := by
  refine ⟨fun catalog => ⟨rfl, rfl⟩, fun catalog times => ⟨rfl, ?_⟩⟩
  unfold fetchClockIndex
  simp [List.length_pos]

/-- Counterexample for C2 as stated: a well-formed response with no time
entries is a failed fetch (`fetchClockIndex` returns `false`), yet the
previously loaded catalog is not kept — `clockIndexCount` has already been
zeroed, so the catalog becomes empty. -/
theorem claim_C2_catalog_replacement_cex :
    (fetchClockIndex (.ok []) [⟨100, []⟩]).2 = false ∧
      (fetchClockIndex (.ok []) [⟨100, []⟩]).1 ≠ [⟨100, []⟩] := by
  constructor
  · rfl
  · intro h
    simp [fetchClockIndex] at h

/-! ## Bounds and progress of the wrap loops (C10) -/

theorem wrapTextAux_zero (text : List Char) (mcpl pos : Nat) :
    wrapTextAux text mcpl pos 0 = [] := rfl

theorem wrapTextAux_succ (text : List Char) (mcpl pos ml : Nat) :
    wrapTextAux text mcpl pos (ml + 1) =
      if pos < text.length then
        if text.length - pos ≤ mcpl then [text.drop pos]
        else
          sliceChars text pos
              (if findSpaceDown text pos (pos + mcpl) = pos then pos + mcpl
                else findSpaceDown text pos (pos + mcpl)) ::
            wrapTextAux text mcpl
              (skipSpaces text
                (if findSpaceDown text pos (pos + mcpl) = pos then pos + mcpl
                  else findSpaceDown text pos (pos + mcpl))) ml
      else [] := rfl

theorem wrapTextAux_stop (text : List Char) (mcpl pos ml : Nat)
    (h : text.length ≤ pos) : wrapTextAux text mcpl pos ml = [] := by
  cases ml with
  | zero => rfl
  | succ ml => rw [wrapTextAux_succ, if_neg (by omega)]

theorem shrinkEnd_zero (measure : List Char → Nat → Nat) (text : List Char)
    (maxWidth fontSize pos endPos : Nat) :
    shrinkEnd measure text maxWidth fontSize pos 0 endPos = endPos := rfl

theorem shrinkEnd_succ (measure : List Char → Nat → Nat) (text : List Char)
    (maxWidth fontSize pos fuel endPos : Nat) :
    shrinkEnd measure text maxWidth fontSize pos (fuel + 1) endPos =
      if measure (sliceChars text pos endPos) fontSize > maxWidth ∧ pos + 1 < endPos then
        match lastSpaceIdx (sliceChars text pos endPos) with
        | some sp =>
          if 0 < sp then shrinkEnd measure text maxWidth fontSize pos fuel (pos + sp)
          else shrinkEnd measure text maxWidth fontSize pos fuel (endPos - 1)
        | none => shrinkEnd measure text maxWidth fontSize pos fuel (endPos - 1)
      else endPos := rfl

theorem wrapTextForFontAux_zero (measure : List Char → Nat → Nat) (text : List Char)
    (maxWidth fontSize pos : Nat) :
    wrapTextForFontAux measure text maxWidth fontSize pos 0 = [] := rfl

theorem wrapTextForFontAux_succ (measure : List Char → Nat → Nat) (text : List Char)
    (maxWidth fontSize pos ml : Nat) :
    wrapTextForFontAux measure text maxWidth fontSize pos (ml + 1) =
      if pos < text.length then
        sliceChars text pos (shrinkEnd measure text maxWidth fontSize pos text.length text.length) ::
          wrapTextForFontAux measure text maxWidth fontSize
            (skipSpaces text (shrinkEnd measure text maxWidth fontSize pos text.length text.length)) ml
      else [] := rfl

theorem sliceChars_ne_nil {text : List Char} {a b : Nat} (ha : a < text.length)
    (hb : a < b) : sliceChars text a b ≠ [] := by
  have : (sliceChars text a b).length ≠ 0 := by
    simp only [sliceChars, List.length_take, List.length_drop]
    omega
  intro h
  rw [h] at this
  exact this rfl

theorem skipSpaces_ge (text : List Char) (pos : Nat) : pos ≤ skipSpaces text pos :=
  Nat.le_add_right _ _

theorem findSpaceDown_ge (text : List Char) (pos : Nat) :
    ∀ bp, pos ≤ bp → pos ≤ findSpaceDown text pos bp := by
  intro bp
  induction bp with
  | zero => intro h; simpa [findSpaceDown] using h
  | succ bp ih =>
    intro h
    unfold findSpaceDown
    split_ifs with h1 h2
    · omega
    · omega
    · exact ih (by omega)

theorem wrapTextAux_length_le (text : List Char) (mcpl : Nat) :
    ∀ ml pos, (wrapTextAux text mcpl pos ml).length ≤ ml := by
  intro ml
  induction ml with
  | zero => intro pos; simp [wrapTextAux_zero]
  | succ ml ih =>
    intro pos
    rw [wrapTextAux_succ]
    split_ifs <;> simp
    all_goals exact ih _

theorem wrapTextAux_progress (text : List Char) (mcpl : Nat) (hm : 1 ≤ mcpl)
    (ml pos : Nat) (hp : pos < text.length) :
    ∃ line pos', pos < pos' ∧ line ≠ [] ∧
      wrapTextAux text mcpl pos (ml + 1) = line :: wrapTextAux text mcpl pos' ml := by
  rw [wrapTextAux_succ, if_pos hp]
  by_cases h2 : text.length - pos ≤ mcpl
  · rw [if_pos h2]
    refine ⟨text.drop pos, text.length, hp, ?_, ?_⟩
    · have hlen : (text.drop pos).length ≠ 0 := by simp; omega
      intro h; rw [h] at hlen; exact hlen rfl
    · rw [wrapTextAux_stop text mcpl text.length ml (le_refl _)]
  · rw [if_neg h2]
    have hge : pos ≤ findSpaceDown text pos (pos + mcpl) :=
      findSpaceDown_ge text pos _ (by omega)
    by_cases he : findSpaceDown text pos (pos + mcpl) = pos
    · rw [if_pos he]
      exact ⟨sliceChars text pos (pos + mcpl), skipSpaces text (pos + mcpl),
        by have := skipSpaces_ge text (pos + mcpl); omega,
        sliceChars_ne_nil hp (by omega), rfl⟩
    · rw [if_neg he]
      exact ⟨sliceChars text pos (findSpaceDown text pos (pos + mcpl)),
        skipSpaces text (findSpaceDown text pos (pos + mcpl)),
        by have := skipSpaces_ge text (findSpaceDown text pos (pos + mcpl)); omega,
        sliceChars_ne_nil hp (by omega), rfl⟩

theorem wrapTextAux_lines_ne_nil (text : List Char) (mcpl : Nat) (hm : 1 ≤ mcpl) :
    ∀ ml pos, ∀ l ∈ wrapTextAux text mcpl pos ml, l ≠ [] := by
  intro ml
  induction ml with
  | zero => intro pos l hl; simp [wrapTextAux_zero] at hl
  | succ ml ih =>
    intro pos l hl
    by_cases hp : pos < text.length
    · obtain ⟨line, pos', _, hne, heq⟩ := wrapTextAux_progress text mcpl hm ml pos hp
      rw [heq] at hl
      rcases List.mem_cons.mp hl with rfl | hl
      · exact hne
      · exact ih pos' l hl
    · rw [wrapTextAux_succ, if_neg hp] at hl
      simp at hl

theorem shrinkEnd_ge (measure : List Char → Nat → Nat) (text : List Char)
    (maxWidth fontSize pos : Nat) :
    ∀ fuel endPos, pos + 1 ≤ endPos →
      pos + 1 ≤ shrinkEnd measure text maxWidth fontSize pos fuel endPos := by
  intro fuel
  induction fuel with
  | zero => intro endPos h; simpa [shrinkEnd_zero] using h
  | succ fuel ih =>
    intro endPos h
    rw [shrinkEnd_succ]
    split_ifs with h1
    · cases hsp : lastSpaceIdx (sliceChars text pos endPos) with
      | none => exact ih (endPos - 1) (by omega)
      | some sp =>
        dsimp only
        by_cases hsc : 0 < sp
        · rw [if_pos hsc]; exact ih (pos + sp) (by omega)
        · rw [if_neg hsc]; exact ih (endPos - 1) (by omega)
    · exact h

theorem wrapTextForFontAux_length_le (measure : List Char → Nat → Nat)
    (text : List Char) (maxWidth fontSize : Nat) :
    ∀ ml pos, (wrapTextForFontAux measure text maxWidth fontSize pos ml).length ≤ ml := by
  intro ml
  induction ml with
  | zero => intro pos; simp [wrapTextForFontAux_zero]
  | succ ml ih =>
    intro pos
    rw [wrapTextForFontAux_succ]
    split_ifs <;> simp
    all_goals exact ih _

theorem wrapTextForFontAux_progress (measure : List Char → Nat → Nat)
    (text : List Char) (maxWidth fontSize : Nat) (ml pos : Nat) (hp : pos < text.length) :
    ∃ line pos', pos < pos' ∧ line ≠ [] ∧
      wrapTextForFontAux measure text maxWidth fontSize pos (ml + 1) =
        line :: wrapTextForFontAux measure text maxWidth fontSize pos' ml := by
  rw [wrapTextForFontAux_succ, if_pos hp]
  have hge : pos + 1 ≤ shrinkEnd measure text maxWidth fontSize pos text.length text.length :=
    shrinkEnd_ge measure text maxWidth fontSize pos text.length text.length (by omega)
  exact ⟨sliceChars text pos (shrinkEnd measure text maxWidth fontSize pos text.length text.length),
    skipSpaces text (shrinkEnd measure text maxWidth fontSize pos text.length text.length),
    by
      have := skipSpaces_ge text
        (shrinkEnd measure text maxWidth fontSize pos text.length text.length)
      omega,
    sliceChars_ne_nil hp (by omega), rfl⟩

theorem wrapTextForFontAux_lines_ne_nil (measure : List Char → Nat → Nat)
    (text : List Char) (maxWidth fontSize : Nat) :
    ∀ ml pos, ∀ l ∈ wrapTextForFontAux measure text maxWidth fontSize pos ml, l ≠ [] := by
  intro ml
  induction ml with
  | zero => intro pos l hl; simp [wrapTextForFontAux_zero] at hl
  | succ ml ih =>
    intro pos l hl
    by_cases hp : pos < text.length
    · obtain ⟨line, pos', _, hne, heq⟩ :=
        wrapTextForFontAux_progress measure text maxWidth fontSize ml pos hp
      rw [heq] at hl
      rcases List.mem_cons.mp hl with rfl | hl
      · exact hne
      · exact ih pos' l hl
    · rw [wrapTextForFontAux_succ, if_neg hp] at hl
      simp at hl

/-- **C10.** Both wrap loops terminate (they are total functions here; each
iteration emits one line and strictly advances the read position), at most
`maxLines` lines are ever written to the output array, and — for a
positive width bound — every emitted line is non-empty. -/
theorem claim_C10_wrap_bounded_progress :
    (∀ (text : List Char) (mcpl maxLines : Nat), 1 ≤ mcpl →
      (wrapText text mcpl maxLines).length ≤ maxLines ∧
      ∀ l ∈ wrapText text mcpl maxLines, l ≠ []) ∧
    (∀ (text : List Char) (mcpl ml pos : Nat), 1 ≤ mcpl → pos < text.length →
      ∃ line pos', pos < pos' ∧ line ≠ [] ∧
        wrapTextAux text mcpl pos (ml + 1) = line :: wrapTextAux text mcpl pos' ml) ∧
    (∀ (measure : List Char → Nat → Nat) (text : List Char)
        (maxWidth fontSize maxLines : Nat),
      (wrapTextForFont measure text maxWidth fontSize maxLines).length ≤ maxLines ∧
      ∀ l ∈ wrapTextForFont measure text maxWidth fontSize maxLines, l ≠ []) ∧
    (∀ (measure : List Char → Nat → Nat) (text : List Char)
        (maxWidth fontSize ml pos : Nat), pos < text.length →
      ∃ line pos', pos < pos' ∧ line ≠ [] ∧
        wrapTextForFontAux measure text maxWidth fontSize pos (ml + 1) =
          line :: wrapTextForFontAux measure text maxWidth fontSize pos' ml) := by
  refine ⟨?_, ?_, ?_, ?_⟩
  · intro text mcpl maxLines hm
    exact ⟨wrapTextAux_length_le text mcpl maxLines 0,
      wrapTextAux_lines_ne_nil text mcpl hm maxLines 0⟩
  · intro text mcpl ml pos hm hp
    exact wrapTextAux_progress text mcpl hm ml pos hp
  · intro measure text maxWidth fontSize maxLines
    exact ⟨wrapTextForFontAux_length_le measure text maxWidth fontSize maxLines 0,
      wrapTextForFontAux_lines_ne_nil measure text maxWidth fontSize maxLines 0⟩
  · intro measure text maxWidth fontSize ml pos hp
    exact wrapTextForFontAux_progress measure text maxWidth fontSize ml pos hp

/-- Witness for C10 at concrete text, width 4, line cap 2 (the cap binds). -/
theorem claim_C10_wrap_bounded_progress_witness :
    (wrapText "abcdefghij mno".toList 4 2).length ≤ 2 ∧
      ∀ l ∈ wrapText "abcdefghij mno".toList 4 2, l ≠ [] :=
  claim_C10_wrap_bounded_progress.1 "abcdefghij mno".toList 4 2 (by decide)

/-! ## Characterisation of the layout searches (C1) -/

theorem fbSearch_nil (fullText : List Char) (uW uH : Nat) :
    fbSearch fullText uW uH [] = ⟨2, [fullText]⟩ := rfl

theorem fbSearch_cons (fullText : List Char) (uW uH f : Nat) (rest : List Nat) :
    fbSearch fullText uW uH (f :: rest) =
      if uW / (f * 6) < 8 then fbSearch fullText uW uH rest
      else if fbTotalHeight (wrapText fullText (uW / (f * 6)) 6).length f ≤ (uH : Int) then
        ⟨f, wrapText fullText (uW / (f * 6)) 6⟩
      else fbSearch fullText uW uH rest := rfl

theorem fbSearch_eq_find (fullText : List Char) (uW uH : Nat) :
    ∀ cands, fbSearch fullText uW uH cands =
      match cands.find? (fbAccepts fullText uW uH) with
      | some f => ⟨f, wrapText fullText (uW / (f * 6)) 6⟩
      | none => ⟨2, [fullText]⟩ := by
  intro cands
  induction cands with
  | nil => rfl
  | cons f rest ih =>
    rw [fbSearch_cons]
    by_cases h8 : uW / (f * 6) < 8
    · rw [if_pos h8, ih]
      have hacc : ¬(fbAccepts fullText uW uH f = true) := by
        simp only [fbAccepts, decide_eq_true_eq]
        intro hc
        omega
      rw [List.find?_cons_of_neg _ hacc]
    · rw [if_neg h8]
      by_cases hh : fbTotalHeight (wrapText fullText (uW / (f * 6)) 6).length f ≤ (uH : Int)
      · rw [if_pos hh]
        have hacc : fbAccepts fullText uW uH f = true := by
          simp only [fbAccepts, decide_eq_true_eq]
          exact ⟨by omega, hh⟩
        rw [List.find?_cons_of_pos _ hacc]
      · rw [if_neg hh, ih]
        have hacc : ¬(fbAccepts fullText uW uH f = true) := by
          simp only [fbAccepts, decide_eq_true_eq]
          intro hc
          exact hh hc.2
        rw [List.find?_cons_of_neg _ hacc]

theorem ofrSearch_cons (measure : List Char → Nat → Nat) (fullText : List Char)
    (uW uH f : Nat) (rest : List Nat) :
    ofrSearch measure fullText uW uH (f :: rest) =
      if (wrapTextForFont measure fullText uW f 6).length * lineHeight13 f ≤ uH ∧
          (wrapTextForFont measure fullText uW f 6).length ≤ 6 then
        ⟨f, wrapTextForFont measure fullText uW f 6⟩
      else ofrSearch measure fullText uW uH rest := rfl

theorem ofrSearch_eq_find (measure : List Char → Nat → Nat) (fullText : List Char)
    (uW uH : Nat) :
    ∀ cands, ofrSearch measure fullText uW uH cands =
      match cands.find? (ofrAccepts measure fullText uW uH) with
      | some f => ⟨f, wrapTextForFont measure fullText uW f 6⟩
      | none => ⟨24, [fullText]⟩ := by
  intro cands
  induction cands with
  | nil => rfl
  | cons f rest ih =>
    rw [ofrSearch_cons]
    by_cases hacc : (wrapTextForFont measure fullText uW f 6).length * lineHeight13 f ≤ uH ∧
        (wrapTextForFont measure fullText uW f 6).length ≤ 6
    · rw [if_pos hacc]
      have : ofrAccepts measure fullText uW uH f = true := by
        simp only [ofrAccepts, decide_eq_true_eq]
        exact hacc
      rw [List.find?_cons_of_pos _ this]
    · rw [if_neg hacc, ih]
      have : ¬(ofrAccepts measure fullText uW uH f = true) := by
        simp only [ofrAccepts, decide_eq_true_eq]
        exact hacc
      rw [List.find?_cons_of_neg _ this]

/-- In a list sorted into non-increasing order, the first element
satisfying `p` is the largest one satisfying `p`. -/
theorem find_pairwise_ge_max {p : Nat → Bool} :
    ∀ l : List Nat, l.Pairwise (· ≥ ·) → ∀ x ∈ l, p x = true →
      ∃ y, l.find? p = some y ∧ x ≤ y := by
  intro l
  induction l with
  | nil => intro _ x hx; simp at hx
  | cons a l ih =>
    intro hpw x hx hpx
    rcases List.pairwise_cons.mp hpw with ⟨ha, hpw'⟩
    rcases List.mem_cons.mp hx with rfl | hx
    · exact ⟨x, List.find?_cons_of_pos _ hpx, le_refl x⟩
    · by_cases hpa : p a = true
      · exact ⟨a, List.find?_cons_of_pos _ hpa, ha x hx⟩
      · rw [List.find?_cons_of_neg _ hpa]
        exact ih hpw' x hx hpx

/-- **C1 (amended).** Both layout searches return at most 6 lines and the
*first* (hence largest, the candidate list being non-increasing) candidate
size whose wrapped-and-truncated lines fit the usable sub-rectangle; when
no candidate is accepted they return the minimum tested size (2 resp. 24)
with the whole text as a single unwrapped line.  The fit test is applied
to the wrap truncated at 6 lines, so a size needing more than 6 lines is
*not* rejected outright (see the counterexample). -/
theorem claim_C1_layout_search_amended :
    (∀ (text : List Char) (zW zH : Nat),
      (calculateOptimalLayout text zW zH).lines.length ≤ 6 ∧
      (match [5, 4, 3, 2].find? (fbAccepts text (zW * 60 / 100) (zH * 60 / 100)) with
        | some f => calculateOptimalLayout text zW zH =
            ⟨f, wrapText text ((zW * 60 / 100) / (f * 6)) 6⟩
        | none => calculateOptimalLayout text zW zH = ⟨2, [text]⟩) ∧
      (∀ g ∈ [5, 4, 3, 2], fbAccepts text (zW * 60 / 100) (zH * 60 / 100) g = true →
        g ≤ (calculateOptimalLayout text zW zH).fontSize)) ∧
    (∀ (measure : List Char → Nat → Nat) (text : List Char) (dW dH : Nat),
      (renderPoemLayout measure text dW dH).lines.length ≤ 6 ∧
      (match ofrCandidates.find? (ofrAccepts measure text (dW * 75 / 100) (dH * 75 / 100)) with
        | some f => renderPoemLayout measure text dW dH =
            ⟨f, wrapTextForFont measure text (dW * 75 / 100) f 6⟩
        | none => renderPoemLayout measure text dW dH = ⟨24, [text]⟩) ∧
      (∀ g ∈ ofrCandidates, ofrAccepts measure text (dW * 75 / 100) (dH * 75 / 100) g = true →
        g ≤ (renderPoemLayout measure text dW dH).fontSize)) := by
  constructor
  · intro text zW zH
    have hcal : calculateOptimalLayout text zW zH =
        match [5, 4, 3, 2].find? (fbAccepts text (zW * 60 / 100) (zH * 60 / 100)) with
        | some f => ⟨f, wrapText text ((zW * 60 / 100) / (f * 6)) 6⟩
        | none => ⟨2, [text]⟩ :=
      fbSearch_eq_find text (zW * 60 / 100) (zH * 60 / 100) [5, 4, 3, 2]
    refine ⟨?_, ?_, ?_⟩
    · cases hfind : [5, 4, 3, 2].find? (fbAccepts text (zW * 60 / 100) (zH * 60 / 100)) with
      | none => rw [hfind] at hcal; rw [hcal]; simp
      | some f =>
        rw [hfind] at hcal; rw [hcal]
        exact wrapTextAux_length_le text _ 6 0
    · cases hfind : [5, 4, 3, 2].find? (fbAccepts text (zW * 60 / 100) (zH * 60 / 100)) with
      | none => rw [hfind] at hcal; exact hcal
      | some f => rw [hfind] at hcal; exact hcal
    · intro g hg hacc
      obtain ⟨y, hy, hle⟩ :=
        find_pairwise_ge_max [5, 4, 3, 2] (by decide) g hg hacc
      rw [hy] at hcal
      rw [hcal]
      exact hle
  · intro measure text dW dH
    have hcal : renderPoemLayout measure text dW dH =
        match ofrCandidates.find? (ofrAccepts measure text (dW * 75 / 100) (dH * 75 / 100)) with
        | some f => ⟨f, wrapTextForFont measure text (dW * 75 / 100) f 6⟩
        | none => ⟨24, [text]⟩ :=
      ofrSearch_eq_find measure text (dW * 75 / 100) (dH * 75 / 100) ofrCandidates
    refine ⟨?_, ?_, ?_⟩
    · cases hfind : ofrCandidates.find? (ofrAccepts measure text (dW * 75 / 100) (dH * 75 / 100)) with
      | none => rw [hfind] at hcal; rw [hcal]; simp
      | some f =>
        rw [hfind] at hcal; rw [hcal]
        exact wrapTextForFontAux_length_le measure text _ f 6 0
    · cases hfind : ofrCandidates.find? (ofrAccepts measure text (dW * 75 / 100) (dH * 75 / 100)) with
      | none => rw [hfind] at hcal; exact hcal
      | some f => rw [hfind] at hcal; exact hcal
    · intro g hg hacc
      obtain ⟨y, hy, hle⟩ :=
        find_pairwise_ge_max ofrCandidates (by decide) g hg hacc
      rw [hy] at hcal
      rw [hcal]
      exact hle

/-- Counterexample for C1 as stated: 100 space-free characters in a
400×570 zone.  An unbounded wrap at the size-5 line width (8 chars) needs
13 > 6 lines, yet size 5 is *accepted* — with only 48 of the 100
characters surviving in the laid-out lines — because the wrap was
truncated to 6 lines before the fit test, instead of the candidate being
rejected outright. -/
theorem claim_C1_layout_search_cex :
    (calculateOptimalLayout (List.replicate 100 'a') 400 570).fontSize = 5 ∧
      ((calculateOptimalLayout (List.replicate 100 'a') 400 570).lines.map
          List.length).sum = 48 ∧
      (List.replicate 100 'a').length = 100 ∧
      6 < (wrapText (List.replicate 100 'a') 8 100).length :=
  ⟨by decide, by decide, by decide, by decide⟩

/-- Witness for C1 (amended) at concrete text and zone: the short text is
accepted at the largest fallback size 5. -/
theorem claim_C1_layout_search_amended_witness :
    (calculateOptimalLayout "hi".toList 400 570).lines.length ≤ 6 ∧
      5 ≤ (calculateOptimalLayout "hi".toList 400 570).fontSize :=
  ⟨(claim_C1_layout_search_amended.1 "hi".toList 400 570).1,
    (claim_C1_layout_search_amended.1 "hi".toList 400 570).2.2 5 (by decide) (by decide)⟩

/-! ## Stage and tick lemmas for the loop model (C4, C8) -/

theorem pressEdge_true_iff (s : LoopState) (now : Nat) (r : Bool) :
    pressEdge s now r = true ↔
      (now - (if r ≠ s.lastButtonReading then now else s.lastDebounceTime) > 50 ∧
        r ≠ s.buttonState ∧ r = false) := by
  simp [pressEdge]


theorem debounceStep_edge_noshow {s : LoopState} {now : Nat} {r : Bool}
    (h : pressEdge s now r = true) (hs : s.showingNote = false) :
    debounceStep s now r =
      ({ s with buttonState := false, lastButtonReading := false,
                clickCount := s.clickCount + 1, lastClickTime := now,
                waitingForDoubleClick := true }, []) := by
  rw [pressEdge_true_iff] at h
  obtain ⟨h1, h2, h3⟩ := h
  subst h3
  have hlbr : s.lastButtonReading = false := by
    cases hx : s.lastButtonReading
    · rfl
    · exfalso
      rw [hx] at h1
      norm_num at h1
  have hbs : s.buttonState = true := by
    cases hx : s.buttonState
    · exact absurd hx.symm h2
    · rfl
  rw [hlbr] at h1
  norm_num at h1
  unfold debounceStep
  rw [hlbr]
  norm_num
  split_ifs <;> simp_all

theorem debounceStep_edge_show {s : LoopState} {now : Nat} {r : Bool}
    (h : pressEdge s now r = true) (hs : s.showingNote = true) :
    debounceStep s now r =
      ({ s with buttonState := false, lastButtonReading := false,
                showingNote := false, clickCount := 0,
                waitingForDoubleClick := false }, [LoopEvent.dismissPress]) := by
  rw [pressEdge_true_iff] at h
  obtain ⟨h1, h2, h3⟩ := h
  subst h3
  have hlbr : s.lastButtonReading = false := by
    cases hx : s.lastButtonReading
    · rfl
    · exfalso
      rw [hx] at h1
      norm_num at h1
  have hbs : s.buttonState = true := by
    cases hx : s.buttonState
    · exact absurd hx.symm h2
    · rfl
  rw [hlbr] at h1
  norm_num at h1
  unfold debounceStep
  rw [hlbr]
  norm_num
  split_ifs <;> simp_all

theorem debounceStep_no_edge {s : LoopState} {now : Nat} {r : Bool}
    (h : pressEdge s now r = false) :
    debounceStep s now r =
      ({ s with buttonState := (debounceStep s now r).1.buttonState,
                lastButtonReading := r,
                lastDebounceTime :=
                  if r ≠ s.lastButtonReading then now else s.lastDebounceTime }, []) := by
  simp only [pressEdge, decide_eq_false_iff_not, not_and] at h
  unfold debounceStep
  split_ifs <;> simp_all
  all_goals try (split_ifs <;> simp_all)

theorem resolveStep_idle {na fo lo : Bool} {s : LoopState} {now : Nat}
    (h : s.waitingForDoubleClick = false ∨ now - s.lastClickTime ≤ 400) :
    resolveStep na fo lo s now = (s, []) := by
  unfold resolveStep
  rcases h with h | h
  · rw [if_neg]; simp [h]
  · rw [if_neg]; intro hc; omega

theorem resolveStep_fire {na fo lo : Bool} {s : LoopState} {now : Nat}
    (hw : s.waitingForDoubleClick = true) (ht : now - s.lastClickTime > 400) :
    resolveStep na fo lo s now = resolveClicks na fo lo now s := by
  unfold resolveStep
  rw [if_pos ⟨hw, ht⟩]

theorem timeoutStep_eval (s : LoopState) (now : Nat) (r : Bool) :
    timeoutStep s now r =
      (if s.showingNote ∧ now - s.noteDisplayTime > 10000 ∧ r = true then
          { s with showingNote := false } else s,
        if s.showingNote ∧ now - s.noteDisplayTime > 10000 ∧ r = true then
          [LoopEvent.dismissTimeout] else []) := by
  unfold timeoutStep
  split_ifs <;> rfl

theorem periodicStep_eval (s : LoopState) (now : Nat) :
    periodicStep s now =
      (if ¬s.showingNote ∧ 10000 ≤ now - s.lastCheck then
          { s with lastCheck := now } else s,
        if ¬s.showingNote ∧ 10000 ≤ now - s.lastCheck then
          [LoopEvent.periodicRefresh] else []) := by
  unfold periodicStep
  split_ifs <;> rfl

theorem resolveClicks_one {na fo lo : Bool} {now : Nat} {s : LoopState}
    (h : s.clickCount = 1) :
    (resolveClicks na fo lo now s).2 = [LoopEvent.primary] ∧
    (resolveClicks na fo lo now s).1.clickCount = 0 ∧
    (resolveClicks na fo lo now s).1.waitingForDoubleClick = false := by
  unfold resolveClicks
  rw [h]
  split_ifs <;> simp_all
  all_goals try (split_ifs <;> simp_all)

theorem resolveClicks_many {na fo lo : Bool} {now : Nat} {s : LoopState}
    (h : 2 ≤ s.clickCount) :
    (resolveClicks na fo lo now s).2 = [LoopEvent.secondary] ∧
    (resolveClicks na fo lo now s).1.clickCount = 0 ∧
    (resolveClicks na fo lo now s).1.waitingForDoubleClick = false := by
  unfold resolveClicks
  rw [if_neg (by omega), if_pos h]
  split_ifs <;> simp_all

theorem resolveClicks_zero {na fo lo : Bool} {now : Nat} {s : LoopState}
    (h : s.clickCount = 0) :
    (resolveClicks na fo lo now s).2 = [] ∧
    (resolveClicks na fo lo now s).1.clickCount = 0 ∧
    (resolveClicks na fo lo now s).1.waitingForDoubleClick = false := by
  unfold resolveClicks
  rw [h]
  norm_num

theorem loopTick_eval (na fo lo : Bool) (s : LoopState) (now : Nat) (r : Bool) :
    loopTick na fo lo s now r =
      ((periodicStep (timeoutStep (resolveStep na fo lo (debounceStep s now r).1 now).1
          now r).1 now).1,
        (debounceStep s now r).2 ++
          (resolveStep na fo lo (debounceStep s now r).1 now).2 ++
          (timeoutStep (resolveStep na fo lo (debounceStep s now r).1 now).1 now r).2 ++
          (periodicStep (timeoutStep (resolveStep na fo lo (debounceStep s now r).1
            now).1 now r).1 now).2) := rfl

/-- Quiet tick: no debounced press and no open click window. -/
theorem loopTick_quiet (na fo lo : Bool) {s : LoopState} {now : Nat} {r : Bool}
    (he : pressEdge s now r = false) (hw : s.waitingForDoubleClick = false) :
    (loopTick na fo lo s now r).2.count LoopEvent.primary = 0 ∧
    (loopTick na fo lo s now r).2.count LoopEvent.secondary = 0 ∧
    (loopTick na fo lo s now r).1.clickCount = s.clickCount ∧
    (loopTick na fo lo s now r).1.waitingForDoubleClick = false ∧
    (loopTick na fo lo s now r).1.lastClickTime = s.lastClickTime := by
  have hd := debounceStep_no_edge he
  rw [loopTick_eval, hd]
  dsimp only
  rw [resolveStep_idle (Or.inl (by simp [hw]))]
  dsimp only
  rw [timeoutStep_eval, periodicStep_eval]
  dsimp only
  split_ifs <;> simp_all

/-- Armed tick with the window still open: the armed state is preserved. -/
theorem loopTick_armed_wait (na fo lo : Bool) {s : LoopState} {now : Nat} {r : Bool}
    (he : pressEdge s now r = false) (hw : s.waitingForDoubleClick = true)
    (hs : s.showingNote = false) (ht : now - s.lastClickTime ≤ 400) :
    (loopTick na fo lo s now r).2.count LoopEvent.primary = 0 ∧
    (loopTick na fo lo s now r).2.count LoopEvent.secondary = 0 ∧
    (loopTick na fo lo s now r).1.clickCount = s.clickCount ∧
    (loopTick na fo lo s now r).1.waitingForDoubleClick = true ∧
    (loopTick na fo lo s now r).1.lastClickTime = s.lastClickTime ∧
    (loopTick na fo lo s now r).1.showingNote = false := by
  have hd := debounceStep_no_edge he
  rw [loopTick_eval, hd]
  dsimp only
  rw [resolveStep_idle (Or.inr (by simp [ht]))]
  dsimp only
  rw [timeoutStep_eval, periodicStep_eval]
  dsimp only
  split_ifs <;> simp_all

theorem resolveClicks_snd (na fo lo : Bool) (now : Nat) (s : LoopState) :
    (resolveClicks na fo lo now s).2 =
      if s.clickCount = 1 then [LoopEvent.primary]
      else if 2 ≤ s.clickCount then [LoopEvent.secondary] else [] := by
  unfold resolveClicks
  split_ifs <;> simp_all
  all_goals try (split_ifs <;> simp_all)

theorem resolveClicks_fst_clickCount (na fo lo : Bool) (now : Nat) (s : LoopState) :
    (resolveClicks na fo lo now s).1.clickCount = 0 := by
  unfold resolveClicks
  split_ifs <;> simp_all
  all_goals try (split_ifs <;> simp_all)

theorem resolveClicks_fst_waiting (na fo lo : Bool) (now : Nat) (s : LoopState) :
    (resolveClicks na fo lo now s).1.waitingForDoubleClick = false := by
  unfold resolveClicks
  split_ifs <;> simp_all
  all_goals try (split_ifs <;> simp_all)

/-- Armed tick, window expired, no new press: the pending count resolves —
one primary action for a single click, one secondary for two or more. -/
theorem loopTick_armed_fire (na fo lo : Bool) {s : LoopState} {now : Nat} {r : Bool}
    (he : pressEdge s now r = false) (hw : s.waitingForDoubleClick = true)
    (hs : s.showingNote = false) (ht : now - s.lastClickTime > 400) :
    (loopTick na fo lo s now r).2.count LoopEvent.primary =
      (if s.clickCount = 1 then 1 else 0) ∧
    (loopTick na fo lo s now r).2.count LoopEvent.secondary =
      (if 2 ≤ s.clickCount then 1 else 0) ∧
    (loopTick na fo lo s now r).1.clickCount = 0 ∧
    (loopTick na fo lo s now r).1.waitingForDoubleClick = false := by
  have hd := debounceStep_no_edge he
  rw [loopTick_eval, hd]
  dsimp only
  rw [resolveStep_fire (by simp [hw]) (by simp [ht])]
  rw [timeoutStep_eval, periodicStep_eval]
  dsimp only
  simp only [resolveClicks_snd, resolveClicks_fst_clickCount, resolveClicks_fst_waiting]
  dsimp only
  clear hd
  split_ifs <;> simp_all
  all_goals
    exact ⟨resolveClicks_fst_clickCount _ _ _ _ _, resolveClicks_fst_waiting _ _ _ _ _⟩

/-- Debounced press with no note shown: one click is counted, the window
(re)opens, and no action fires this tick. -/
theorem loopTick_edge_noshow (na fo lo : Bool) {s : LoopState} {now : Nat} {r : Bool}
    (he : pressEdge s now r = true) (hs : s.showingNote = false) :
    (loopTick na fo lo s now r).2.count LoopEvent.primary = 0 ∧
    (loopTick na fo lo s now r).2.count LoopEvent.secondary = 0 ∧
    (loopTick na fo lo s now r).1.clickCount = s.clickCount + 1 ∧
    (loopTick na fo lo s now r).1.waitingForDoubleClick = true ∧
    (loopTick na fo lo s now r).1.lastClickTime = now ∧
    (loopTick na fo lo s now r).1.showingNote = false := by
  have hd := debounceStep_edge_noshow he hs
  rw [loopTick_eval, hd]
  dsimp only
  rw [resolveStep_idle (Or.inr (by simp))]
  dsimp only
  rw [timeoutStep_eval, periodicStep_eval]
  dsimp only
  split_ifs <;> simp_all

/-- Debounced press while the note is shown: immediate dismiss, the click
count is reset and no click is counted. -/
theorem loopTick_edge_show (na fo lo : Bool) {s : LoopState} {now : Nat} {r : Bool}
    (he : pressEdge s now r = true) (hs : s.showingNote = true) :
    (loopTick na fo lo s now r).2.count LoopEvent.primary = 0 ∧
    (loopTick na fo lo s now r).2.count LoopEvent.secondary = 0 ∧
    LoopEvent.dismissPress ∈ (loopTick na fo lo s now r).2 ∧
    (loopTick na fo lo s now r).1.clickCount = 0 ∧
    (loopTick na fo lo s now r).1.waitingForDoubleClick = false ∧
    (loopTick na fo lo s now r).1.showingNote = false := by
  have hd := debounceStep_edge_show he hs
  rw [loopTick_eval, hd]
  dsimp only
  rw [resolveStep_idle (Or.inl (by simp))]
  dsimp only
  rw [timeoutStep_eval, periodicStep_eval]
  dsimp only
  split_ifs <;> simp_all

theorem debounceStep_events (s : LoopState) (now : Nat) (r : Bool) :
    (debounceStep s now r).2 = [] ∨
      (debounceStep s now r).2 = [LoopEvent.dismissPress] := by
  unfold debounceStep
  split_ifs <;> simp
  all_goals try (split_ifs <;> simp)

theorem resolveStep_events (na fo lo : Bool) (s : LoopState) (now : Nat) :
    (resolveStep na fo lo s now).2 = [] ∨
      (resolveStep na fo lo s now).2 = [LoopEvent.primary] ∨
      (resolveStep na fo lo s now).2 = [LoopEvent.secondary] := by
  unfold resolveStep
  split_ifs
  · rw [resolveClicks_snd]
    split_ifs <;> simp
  · simp

theorem loopTick_noteInv {na fo lo : Bool} {s : LoopState} {now : Nat} {r : Bool}
    (h : s.showingNote = true → s.waitingForDoubleClick = false) :
    (loopTick na fo lo s now r).1.showingNote = true →
      (loopTick na fo lo s now r).1.waitingForDoubleClick = false := by
  by_cases he : pressEdge s now r = true
  · cases hs : s.showingNote
    · obtain ⟨_, _, _, hw, _, hsh⟩ := loopTick_edge_noshow na fo lo he hs
      intro hc
      rw [hsh] at hc
      exact absurd hc (by simp)
    · obtain ⟨_, _, _, _, hw, _⟩ := loopTick_edge_show na fo lo he hs
      intro _
      exact hw
  · rw [Bool.not_eq_true] at he
    cases hw : s.waitingForDoubleClick
    · obtain ⟨_, _, _, hw2, _⟩ := loopTick_quiet na fo lo he hw
      intro _
      exact hw2
    · have hs : s.showingNote = false := by
        cases hx : s.showingNote
        · rfl
        · rw [h hx] at hw
          exact absurd hw (by simp)
      by_cases ht : now - s.lastClickTime ≤ 400
      · obtain ⟨_, _, _, _, _, hsh⟩ := loopTick_armed_wait na fo lo he hw hs ht
        intro hc
        rw [hsh] at hc
        exact absurd hc (by simp)
      · obtain ⟨_, _, _, hw2⟩ := loopTick_armed_fire na fo lo he hw hs (by omega)
        intro _
        exact hw2

theorem loopTick_timeout_released {na fo lo : Bool} {s : LoopState} {now : Nat}
    {r : Bool} (h : LoopEvent.dismissTimeout ∈ (loopTick na fo lo s now r).2) :
    r = true := by
  rw [loopTick_eval] at h
  rcases debounceStep_events s now r with h1 | h1 <;> rw [h1] at h <;>
    rcases resolveStep_events na fo lo (debounceStep s now r).1 now with h2 | h2 | h2 <;>
      rw [h2] at h <;>
        rw [timeoutStep_eval, periodicStep_eval] at h <;>
          split_ifs at h <;> simp_all

theorem loopTick_no_refresh_while_note {na fo lo : Bool} {s : LoopState} {now : Nat}
    {r : Bool} (hinv : s.showingNote = true → s.waitingForDoubleClick = false)
    (hs : s.showingNote = true)
    (hp : LoopEvent.periodicRefresh ∈ (loopTick na fo lo s now r).2) :
    LoopEvent.dismissPress ∈ (loopTick na fo lo s now r).2 ∨
      LoopEvent.dismissTimeout ∈ (loopTick na fo lo s now r).2 := by
  by_cases he : pressEdge s now r = true
  · left
    obtain ⟨_, _, hmem, _, _, _⟩ := loopTick_edge_show na fo lo he hs
    exact hmem
  · rw [Bool.not_eq_true] at he
    have hw := hinv hs
    have hd := debounceStep_no_edge he
    rw [loopTick_eval, hd] at hp ⊢
    dsimp only at hp ⊢
    rw [resolveStep_idle (Or.inl (by simp [hw]))] at hp ⊢
    dsimp only at hp ⊢
    rw [timeoutStep_eval, periodicStep_eval] at hp ⊢
    dsimp only at hp ⊢
    clear hd
    split_ifs at hp ⊢ <;> simp_all

theorem loopTick_dismiss_explicit {na fo lo : Bool} {s : LoopState} {now : Nat}
    {r : Bool} (hinv : s.showingNote = true → s.waitingForDoubleClick = false)
    (hs : s.showingNote = true)
    (hs2 : (loopTick na fo lo s now r).1.showingNote = false) :
    LoopEvent.dismissPress ∈ (loopTick na fo lo s now r).2 ∨
      LoopEvent.dismissTimeout ∈ (loopTick na fo lo s now r).2 := by
  by_cases he : pressEdge s now r = true
  · left
    obtain ⟨_, _, hmem, _, _, _⟩ := loopTick_edge_show na fo lo he hs
    exact hmem
  · rw [Bool.not_eq_true] at he
    have hw := hinv hs
    have hd := debounceStep_no_edge he
    rw [loopTick_eval, hd] at hs2 ⊢
    dsimp only at hs2 ⊢
    rw [resolveStep_idle (Or.inl (by simp [hw]))] at hs2 ⊢
    dsimp only at hs2 ⊢
    rw [timeoutStep_eval, periodicStep_eval] at hs2 ⊢
    dsimp only at hs2 ⊢
    clear hd
    split_ifs at hs2 ⊢ <;> simp_all

/-- **C8.** Per loop iteration: the "note shown implies no open click
window" invariant is preserved; while a note is shown the periodic refresh
never runs unless the note was dismissed earlier in the same iteration (by
press or timeout); a shown note only ceases to be shown through an
explicit press dismissal or the idle-timeout dismissal; and the 10-second
timeout dismisses only when the button currently reads HIGH (released). -/
theorem claim_C8_note_dismissal_priority :
    (∀ (na fo lo : Bool) (s : LoopState) (now : Nat) (r : Bool),
      (s.showingNote = true → s.waitingForDoubleClick = false) →
      ((loopTick na fo lo s now r).1.showingNote = true →
        (loopTick na fo lo s now r).1.waitingForDoubleClick = false)) ∧
    (∀ (na fo lo : Bool) (s : LoopState) (now : Nat) (r : Bool),
      (s.showingNote = true → s.waitingForDoubleClick = false) →
      s.showingNote = true →
      LoopEvent.periodicRefresh ∈ (loopTick na fo lo s now r).2 →
      LoopEvent.dismissPress ∈ (loopTick na fo lo s now r).2 ∨
        LoopEvent.dismissTimeout ∈ (loopTick na fo lo s now r).2) ∧
    (∀ (na fo lo : Bool) (s : LoopState) (now : Nat) (r : Bool),
      (s.showingNote = true → s.waitingForDoubleClick = false) →
      s.showingNote = true →
      (loopTick na fo lo s now r).1.showingNote = false →
      LoopEvent.dismissPress ∈ (loopTick na fo lo s now r).2 ∨
        LoopEvent.dismissTimeout ∈ (loopTick na fo lo s now r).2) ∧
    (∀ (na fo lo : Bool) (s : LoopState) (now : Nat) (r : Bool),
      LoopEvent.dismissTimeout ∈ (loopTick na fo lo s now r).2 → r = true) :=
  ⟨fun _ _ _ _ _ _ h => loopTick_noteInv h,
    fun _ _ _ _ _ _ hinv hs hp => loopTick_no_refresh_while_note hinv hs hp,
    fun _ _ _ _ _ _ hinv hs hs2 => loopTick_dismiss_explicit hinv hs hs2,
    fun _ _ _ _ _ _ h => loopTick_timeout_released h⟩

/-- Witness for C8: a note shown since `millis = 0`, button released,
tick at 20 s — the note is dismissed, and only by timeout or press. -/
theorem claim_C8_note_dismissal_priority_witness :
    LoopEvent.dismissPress ∈
        (loopTick true true true ⟨true, true, 0, 0, 0, false, true, 0, 0⟩ 20000 true).2 ∨
      LoopEvent.dismissTimeout ∈
        (loopTick true true true ⟨true, true, 0, 0, 0, false, true, 0, 0⟩ 20000 true).2 :=
  claim_C8_note_dismissal_priority.2.2.1 true true true
    ⟨true, true, 0, 0, 0, false, true, 0, 0⟩ 20000 true (by decide) (by decide) (by decide)

/-! ## Run-level lemmas for the button scenarios (C4) -/

theorem loopRun_nil (na fo lo : Bool) (s : LoopState) :
    loopRun na fo lo s [] = (s, []) := rfl

theorem loopRun_cons (na fo lo : Bool) (s : LoopState) (now : Nat) (r : Bool)
    (rest : List (Nat × Bool)) :
    loopRun na fo lo s ((now, r) :: rest) =
      ((loopRun na fo lo (loopTick na fo lo s now r).1 rest).1,
        (loopTick na fo lo s now r).2 ++
          (loopRun na fo lo (loopTick na fo lo s now r).1 rest).2) := rfl

theorem pressEdges_nil (na fo lo : Bool) (s : LoopState) :
    pressEdges na fo lo s [] = [] := rfl

theorem pressEdges_cons (na fo lo : Bool) (s : LoopState) (now : Nat) (r : Bool)
    (rest : List (Nat × Bool)) :
    pressEdges na fo lo s ((now, r) :: rest) =
      (if pressEdge s now r = true then [now] else []) ++
        pressEdges na fo lo (loopTick na fo lo s now r).1 rest := rfl

theorem pressEdges_subset (na fo lo : Bool) :
    ∀ (trace : List (Nat × Bool)) (s : LoopState) (t : Nat),
      t ∈ pressEdges na fo lo s trace → t ∈ trace.map Prod.fst := by
  intro trace
  induction trace with
  | nil => intro s t h; simp [pressEdges_nil] at h
  | cons p rest ih =>
    intro s t h
    obtain ⟨now, r⟩ := p
    rw [pressEdges_cons] at h
    rcases List.mem_append.mp h with h | h
    · by_cases he : pressEdge s now r = true
      · rw [if_pos he] at h
        simp at h
        simp [h]
      · rw [if_neg he] at h
        simp at h
    · have := ih (loopTick na fo lo s now r).1 t h
      simp only [List.map_cons]
      exact List.mem_cons_of_mem _ this

/-- A quiet-state preservation fact: with no press, no open window and
no note shown, the note stays hidden. -/
theorem loopTick_quiet_noshow (na fo lo : Bool) {s : LoopState} {now : Nat} {r : Bool}
    (he : pressEdge s now r = false) (hw : s.waitingForDoubleClick = false)
    (hs : s.showingNote = false) :
    (loopTick na fo lo s now r).1.showingNote = false := by
  have hd := debounceStep_no_edge he
  rw [loopTick_eval, hd]
  dsimp only
  rw [resolveStep_idle (Or.inl (by simp [hw]))]
  dsimp only
  rw [timeoutStep_eval, periodicStep_eval]
  dsimp only
  clear hd
  split_ifs <;> simp_all

/-- With no open window and no further debounced press, a run emits no
primary or secondary action. -/
theorem loopRun_quiet (na fo lo : Bool) :
    ∀ (trace : List (Nat × Bool)) (s : LoopState),
      s.waitingForDoubleClick = false →
      pressEdges na fo lo s trace = [] →
      (loopRun na fo lo s trace).2.count LoopEvent.primary = 0 ∧
      (loopRun na fo lo s trace).2.count LoopEvent.secondary = 0 := by
  intro trace
  induction trace with
  | nil => intro s _ _; simp [loopRun_nil]
  | cons p rest ih =>
    intro s hw hE
    obtain ⟨now, r⟩ := p
    rw [pressEdges_cons] at hE
    have he : pressEdge s now r = false := by
      by_contra hc
      rw [Bool.not_eq_false] at hc
      rw [if_pos hc] at hE
      simp at hE
    rw [if_neg (by simp [he])] at hE
    simp only [List.nil_append] at hE
    obtain ⟨p0, s0, _, hw2, _⟩ := loopTick_quiet na fo lo he hw
    obtain ⟨ihp, ihs⟩ := ih (loopTick na fo lo s now r).1 hw2 hE
    rw [loopRun_cons]
    constructor <;> simp [List.count_append, p0, s0, ihp, ihs]

/-- An armed run with no further press: once the window elapses, the
pending count resolves to exactly one primary (count 1) or one secondary
(count ≥ 2) action, and nothing else fires. -/
theorem loopRun_armed (na fo lo : Bool) :
    ∀ (trace : List (Nat × Bool)) (s : LoopState) (tc : Nat),
      s.waitingForDoubleClick = true →
      s.showingNote = false →
      s.lastClickTime = tc →
      pressEdges na fo lo s trace = [] →
      List.Pairwise (· ≤ ·) (trace.map Prod.fst) →
      (∃ p ∈ trace, tc + 400 < p.1) →
      (loopRun na fo lo s trace).2.count LoopEvent.primary =
        (if s.clickCount = 1 then 1 else 0) ∧
      (loopRun na fo lo s trace).2.count LoopEvent.secondary =
        (if 2 ≤ s.clickCount then 1 else 0) := by
  intro trace
  induction trace with
  | nil => intro s tc _ _ _ _ _ hex; simp at hex
  | cons p rest ih =>
    intro s tc hw hs hlc hE hmono hex
    obtain ⟨now, r⟩ := p
    rw [pressEdges_cons] at hE
    have he : pressEdge s now r = false := by
      by_contra hc
      rw [Bool.not_eq_false] at hc
      rw [if_pos hc] at hE
      simp at hE
    rw [if_neg (by simp [he])] at hE
    simp only [List.nil_append] at hE
    by_cases hfire : now - tc > 400
    · obtain ⟨fp, fs, fc, fw⟩ := loopTick_armed_fire na fo lo he hw hs (by rw [hlc]; exact hfire)
      obtain ⟨qp, qs⟩ := loopRun_quiet na fo lo rest (loopTick na fo lo s now r).1 fw hE
      rw [loopRun_cons]
      constructor <;> simp [List.count_append, fp, fs, qp, qs]
    · obtain ⟨wp, ws, wc, ww, wlc, wsh⟩ := loopTick_armed_wait na fo lo he hw hs (by rw [hlc]; omega)
      obtain ⟨p2, hp2, hgt2⟩ := hex
      have hp2rest : p2 ∈ rest := by
        rcases List.mem_cons.mp hp2 with rfl | h
        · exfalso; omega
        · exact h
      obtain ⟨ihp, ihs⟩ := ih (loopTick na fo lo s now r).1 tc ww wsh
        (by rw [wlc, hlc]) hE (List.Pairwise.sublist (by simp) hmono)
        ⟨p2, hp2rest, hgt2⟩
      rw [loopRun_cons]
      rw [wc] at ihp ihs
      constructor <;> simp [List.count_append, wp, ws, ihp, ihs]

/-- An armed run with exactly one further debounced press inside the
window: the press joins the pending sequence, which then resolves once —
with at least two clicks. -/
theorem loopRun_armed_one_edge (na fo lo : Bool) :
    ∀ (trace : List (Nat × Bool)) (s : LoopState) (tc t2 : Nat),
      s.waitingForDoubleClick = true →
      s.showingNote = false →
      s.lastClickTime = tc →
      pressEdges na fo lo s trace = [t2] →
      List.Pairwise (· ≤ ·) (trace.map Prod.fst) →
      t2 ≤ tc + 400 →
      (∃ p ∈ trace, t2 + 400 < p.1) →
      (loopRun na fo lo s trace).2.count LoopEvent.primary =
        (if s.clickCount + 1 = 1 then 1 else 0) ∧
      (loopRun na fo lo s trace).2.count LoopEvent.secondary =
        (if 2 ≤ s.clickCount + 1 then 1 else 0) := by
  intro trace
  induction trace with
  | nil => intro s tc t2 _ _ _ hE; simp [pressEdges_nil] at hE
  | cons p rest ih =>
    intro s tc t2 hw hs hlc hE hmono ht2 hex
    obtain ⟨now, r⟩ := p
    rw [pressEdges_cons] at hE
    by_cases he : pressEdge s now r = true
    · rw [if_pos he] at hE
      simp only [List.cons_append, List.nil_append, List.cons.injEq] at hE
      obtain ⟨rfl, hE'⟩ := hE
      obtain ⟨ep, es, ec, ew, elc, esh⟩ := loopTick_edge_noshow na fo lo he hs
      obtain ⟨p2, hp2, hgt2⟩ := hex
      have hp2rest : p2 ∈ rest := by
        rcases List.mem_cons.mp hp2 with rfl | h
        · exfalso; omega
        · exact h
      obtain ⟨ihp, ihs⟩ := loopRun_armed na fo lo rest (loopTick na fo lo s now r).1
        now ew esh elc hE' (List.Pairwise.sublist (by simp) hmono) ⟨p2, hp2rest, hgt2⟩
      rw [ec] at ihp ihs
      rw [loopRun_cons]
      constructor <;> simp [List.count_append, ep, es, ihp, ihs]
    · rw [if_neg he, List.nil_append] at hE
      rw [Bool.not_eq_true] at he
      have ht2mem : t2 ∈ rest.map Prod.fst :=
        pressEdges_subset na fo lo rest _ t2 (by rw [hE]; simp)
      have hnow : now ≤ t2 := by
        rcases List.pairwise_cons.mp hmono with ⟨hhead, _⟩
        exact hhead t2 ht2mem
      obtain ⟨wp, ws, wc, ww, wlc, wsh⟩ := loopTick_armed_wait na fo lo he hw hs (by rw [hlc]; omega)
      obtain ⟨p2, hp2, hgt2⟩ := hex
      have hp2rest : p2 ∈ rest := by
        rcases List.mem_cons.mp hp2 with rfl | h
        · exfalso; omega
        · exact h
      obtain ⟨ihp, ihs⟩ := ih (loopTick na fo lo s now r).1 tc t2 ww wsh
        (by rw [wlc, hlc]) hE (List.Pairwise.sublist (by simp) hmono) ht2
        ⟨p2, hp2rest, hgt2⟩
      rw [wc] at ihp ihs
      rw [loopRun_cons]
      constructor <;> simp [List.count_append, wp, ws, ihp, ihs]

/-- Scenario (a): from an idle start, a single debounced press with no
further press, once the window elapses, yields exactly one primary action
and no secondary action. -/
theorem loopRun_single_press (na fo lo : Bool) :
    ∀ (trace : List (Nat × Bool)) (s : LoopState) (t1 : Nat),
      s.clickCount = 0 →
      s.waitingForDoubleClick = false →
      s.showingNote = false →
      pressEdges na fo lo s trace = [t1] →
      List.Pairwise (· ≤ ·) (trace.map Prod.fst) →
      (∃ p ∈ trace, t1 + 400 < p.1) →
      (loopRun na fo lo s trace).2.count LoopEvent.primary = 1 ∧
      (loopRun na fo lo s trace).2.count LoopEvent.secondary = 0 := by
  intro trace
  induction trace with
  | nil => intro s t1 _ _ _ hE; simp [pressEdges_nil] at hE
  | cons p rest ih =>
    intro s t1 hc hw hs hE hmono hex
    obtain ⟨now, r⟩ := p
    rw [pressEdges_cons] at hE
    by_cases he : pressEdge s now r = true
    · rw [if_pos he] at hE
      simp only [List.cons_append, List.nil_append, List.cons.injEq] at hE
      obtain ⟨rfl, hE'⟩ := hE
      obtain ⟨ep, es, ec, ew, elc, esh⟩ := loopTick_edge_noshow na fo lo he hs
      obtain ⟨p2, hp2, hgt2⟩ := hex
      have hp2rest : p2 ∈ rest := by
        rcases List.mem_cons.mp hp2 with rfl | h
        · exfalso; omega
        · exact h
      obtain ⟨ihp, ihs⟩ := loopRun_armed na fo lo rest (loopTick na fo lo s now r).1
        now ew esh elc hE' (List.Pairwise.sublist (by simp) hmono) ⟨p2, hp2rest, hgt2⟩
      rw [ec, hc] at ihp ihs
      simp only [Nat.zero_add] at ihp ihs
      rw [loopRun_cons]
      constructor <;> simp [List.count_append, ep, es, ihp, ihs]
    · rw [if_neg he, List.nil_append] at hE
      rw [Bool.not_eq_true] at he
      have ht1mem : t1 ∈ rest.map Prod.fst :=
        pressEdges_subset na fo lo rest _ t1 (by rw [hE]; simp)
      have hnow : now ≤ t1 := by
        rcases List.pairwise_cons.mp hmono with ⟨hhead, _⟩
        exact hhead t1 ht1mem
      obtain ⟨qp, qs, qc, qw, qlc⟩ := loopTick_quiet na fo lo he hw
      have qsh := loopTick_quiet_noshow na fo lo he hw hs
      obtain ⟨p2, hp2, hgt2⟩ := hex
      have hp2rest : p2 ∈ rest := by
        rcases List.mem_cons.mp hp2 with rfl | h
        · exfalso; omega
        · exact h
      obtain ⟨ihp, ihs⟩ := ih (loopTick na fo lo s now r).1 t1 (by rw [qc, hc]) qw qsh
        hE (List.Pairwise.sublist (by simp) hmono) ⟨p2, hp2rest, hgt2⟩
      rw [loopRun_cons]
      constructor <;> simp [List.count_append, qp, qs, ihp, ihs]

/-- Scenario (b): from an idle start, two debounced presses with the
second inside the 400 ms window, and no further press, yield exactly one
secondary action and no primary action. -/
theorem loopRun_double_press (na fo lo : Bool) :
    ∀ (trace : List (Nat × Bool)) (s : LoopState) (t1 t2 : Nat),
      s.clickCount = 0 →
      s.waitingForDoubleClick = false →
      s.showingNote = false →
      pressEdges na fo lo s trace = [t1, t2] →
      List.Pairwise (· ≤ ·) (trace.map Prod.fst) →
      t2 ≤ t1 + 400 →
      (∃ p ∈ trace, t2 + 400 < p.1) →
      (loopRun na fo lo s trace).2.count LoopEvent.primary = 0 ∧
      (loopRun na fo lo s trace).2.count LoopEvent.secondary = 1 := by
  intro trace
  induction trace with
  | nil => intro s t1 t2 _ _ _ hE; simp [pressEdges_nil] at hE
  | cons p rest ih =>
    intro s t1 t2 hc hw hs hE hmono ht2 hex
    obtain ⟨now, r⟩ := p
    rw [pressEdges_cons] at hE
    by_cases he : pressEdge s now r = true
    · rw [if_pos he] at hE
      simp only [List.cons_append, List.nil_append, List.cons.injEq] at hE
      obtain ⟨rfl, hE'⟩ := hE
      obtain ⟨ep, es, ec, ew, elc, esh⟩ := loopTick_edge_noshow na fo lo he hs
      have ht2mem : t2 ∈ rest.map Prod.fst :=
        pressEdges_subset na fo lo rest _ t2 (by rw [hE']; simp)
      have hnow2 : now ≤ t2 := by
        rcases List.pairwise_cons.mp hmono with ⟨hhead, _⟩
        exact hhead t2 ht2mem
      obtain ⟨p2, hp2, hgt2⟩ := hex
      have hp2rest : p2 ∈ rest := by
        rcases List.mem_cons.mp hp2 with rfl | h
        · exfalso; omega
        · exact h
      obtain ⟨ihp, ihs⟩ := loopRun_armed_one_edge na fo lo rest
        (loopTick na fo lo s now r).1 now t2 ew esh elc hE'
        (List.Pairwise.sublist (by simp) hmono) ht2 ⟨p2, hp2rest, hgt2⟩
      rw [ec, hc] at ihp ihs
      simp only [Nat.zero_add] at ihp ihs
      rw [loopRun_cons]
      constructor <;> simp [List.count_append, ep, es, ihp, ihs]
    · rw [if_neg he, List.nil_append] at hE
      rw [Bool.not_eq_true] at he
      have ht2mem : t2 ∈ rest.map Prod.fst :=
        pressEdges_subset na fo lo rest _ t2 (by rw [hE]; simp)
      have hnow2 : now ≤ t2 := by
        rcases List.pairwise_cons.mp hmono with ⟨hhead, _⟩
        exact hhead t2 ht2mem
      obtain ⟨qp, qs, qc, qw, qlc⟩ := loopTick_quiet na fo lo he hw
      have qsh := loopTick_quiet_noshow na fo lo he hw hs
      obtain ⟨p2, hp2, hgt2⟩ := hex
      have hp2rest : p2 ∈ rest := by
        rcases List.mem_cons.mp hp2 with rfl | h
        · exfalso; omega
        · exact h
      obtain ⟨ihp, ihs⟩ := ih (loopTick na fo lo s now r).1 t1 t2 (by rw [qc, hc]) qw qsh
        hE (List.Pairwise.sublist (by simp) hmono) ht2 ⟨p2, hp2rest, hgt2⟩
      rw [loopRun_cons]
      constructor <;> simp [List.count_append, qp, qs, ihp, ihs]

/-- **C4.** Button FSM scenarios, for every execution of the loop from an
idle button state over a monotone `millis` trace: (a) a single debounced
press with no further press resolves, once the 400 ms window elapses, to
exactly one primary action and no secondary action; (b) two debounced
presses with the second inside the window resolve to exactly one
secondary action and zero primary actions; (c) a debounced press while
the note is shown resolves immediately to a dismiss with the pending
click count reset to zero and no click counted. -/
theorem claim_C4_button_fsm_scenarios :
    (∀ (na fo lo : Bool) (trace : List (Nat × Bool)) (s : LoopState) (t1 : Nat),
      s.clickCount = 0 → s.waitingForDoubleClick = false → s.showingNote = false →
      pressEdges na fo lo s trace = [t1] →
      List.Pairwise (· ≤ ·) (trace.map Prod.fst) →
      (∃ p ∈ trace, t1 + 400 < p.1) →
      (loopRun na fo lo s trace).2.count LoopEvent.primary = 1 ∧
      (loopRun na fo lo s trace).2.count LoopEvent.secondary = 0) ∧
    (∀ (na fo lo : Bool) (trace : List (Nat × Bool)) (s : LoopState) (t1 t2 : Nat),
      s.clickCount = 0 → s.waitingForDoubleClick = false → s.showingNote = false →
      pressEdges na fo lo s trace = [t1, t2] →
      List.Pairwise (· ≤ ·) (trace.map Prod.fst) →
      t2 ≤ t1 + 400 →
      (∃ p ∈ trace, t2 + 400 < p.1) →
      (loopRun na fo lo s trace).2.count LoopEvent.primary = 0 ∧
      (loopRun na fo lo s trace).2.count LoopEvent.secondary = 1) ∧
    (∀ (na fo lo : Bool) (s : LoopState) (now : Nat) (r : Bool),
      pressEdge s now r = true → s.showingNote = true →
      LoopEvent.dismissPress ∈ (loopTick na fo lo s now r).2 ∧
      (loopTick na fo lo s now r).2.count LoopEvent.primary = 0 ∧
      (loopTick na fo lo s now r).2.count LoopEvent.secondary = 0 ∧
      (loopTick na fo lo s now r).1.clickCount = 0 ∧
      (loopTick na fo lo s now r).1.waitingForDoubleClick = false) := by
  refine ⟨?_, ?_, ?_⟩
  · intro na fo lo trace s t1 hc hw hs hE hmono hex
    exact loopRun_single_press na fo lo trace s t1 hc hw hs hE hmono hex
  · intro na fo lo trace s t1 t2 hc hw hs hE hmono ht2 hex
    exact loopRun_double_press na fo lo trace s t1 t2 hc hw hs hE hmono ht2 hex
  · intro na fo lo s now r he hsh
    obtain ⟨hp, hsec, hmem, hcc, hwt, _⟩ := loopTick_edge_show na fo lo he hsh
    exact ⟨hmem, hp, hsec, hcc, hwt⟩

/-- Witness for C4 (scenario a): press held from 100 ms, debounced at
160 ms, released at 200 ms, window expires by 601 ms — one primary action. -/
theorem claim_C4_button_fsm_scenarios_witness :
    (loopRun true true true ⟨true, true, 0, 0, 0, false, false, 0, 0⟩
        [(100, false), (160, false), (200, true), (601, true)]).2.count
      LoopEvent.primary = 1 ∧
    (loopRun true true true ⟨true, true, 0, 0, 0, false, false, 0, 0⟩
        [(100, false), (160, false), (200, true), (601, true)]).2.count
      LoopEvent.secondary = 0 :=
  claim_C4_button_fsm_scenarios.1 true true true
    [(100, false), (160, false), (200, true), (601, true)]
    ⟨true, true, 0, 0, 0, false, false, 0, 0⟩ 160 rfl rfl rfl (by decide) (by decide)
    ⟨(601, true), by decide, by decide⟩

/-! ## Round-trip of the word wrap (C3) -/

theorem joinSpace_nil : joinSpace [] = [] := rfl

theorem joinSpace_single (w : List Char) : joinSpace [w] = w := rfl

theorem joinSpace_cons (w : List Char) (ws : List (List Char)) (h : ws ≠ []) :
    joinSpace (w :: ws) = w ++ ' ' :: joinSpace ws := by
  cases ws with
  | nil => exact absurd rfl h
  | cons w2 ws2 => rfl

theorem joinSpace_ne_nil {ws : List (List Char)} {w : List Char} (hw : w ∈ ws)
    (hne : w ≠ []) : joinSpace ws ≠ [] := by
  cases ws with
  | nil => simp at hw
  | cons w1 ws1 =>
    cases ws1 with
    | nil =>
      rw [joinSpace_single]
      simp at hw
      exact hw ▸ hne
    | cons w2 ws2 =>
      rw [joinSpace_cons _ _ (by simp)]
      intro hc
      rcases List.mem_cons.mp hw with rfl | _
      · exact hne (List.append_eq_nil.mp hc).1
      · simpa using congrArg List.length hc

theorem findSpaceDown_found (text : List Char) (pos : Nat) :
    ∀ bp, (∃ j, pos < j ∧ j ≤ bp ∧ text[j]? = some ' ') →
      pos < findSpaceDown text pos bp ∧ findSpaceDown text pos bp ≤ bp ∧
        text[findSpaceDown text pos bp]? = some ' ' := by
  intro bp
  induction bp with
  | zero =>
    intro ⟨j, hj1, hj2, _⟩
    omega
  | succ bp ih =>
    intro ⟨j, hj1, hj2, hsp⟩
    unfold findSpaceDown
    by_cases h1 : bp + 1 ≤ pos
    · omega
    · rw [if_neg h1]
      by_cases h2 : text[bp + 1]? = some ' '
      · rw [if_pos h2]
        exact ⟨by omega, le_refl _, h2⟩
      · rw [if_neg h2]
        have hjne : j ≠ bp + 1 := fun hc => h2 (hc ▸ hsp)
        obtain ⟨a, b, c⟩ := ih ⟨j, hj1, by omega, hsp⟩
        exact ⟨a, by omega, c⟩

theorem joinSpace_space_split :
    ∀ (ws : List (List Char)) (l : List Char) (k : Nat),
      l = joinSpace ws → (∀ w ∈ ws, w ≠ [] ∧ ' ' ∉ w) → l[k]? = some ' ' →
      ∃ ws₁ ws₂, ws₁ ≠ [] ∧ ws₂ ≠ [] ∧ ws = ws₁ ++ ws₂ ∧
        l.take k = joinSpace ws₁ ∧ l.drop (k + 1) = joinSpace ws₂ := by
  intro ws
  induction ws with
  | nil =>
    intro l k hl _ hsp
    rw [hl, joinSpace_nil] at hsp
    simp at hsp
  | cons w ws' ih =>
    intro l k hl hwords hsp
    by_cases hws'ne : ws' = []
    · subst hws'ne
      rw [hl, joinSpace_single] at hsp
      have hmem : ' ' ∈ w := by
        have := List.getElem?_eq_some.mp hsp
        obtain ⟨hlt, hget⟩ := this
        rw [← hget]
        exact List.getElem_mem hlt
      exact absurd hmem (hwords w (by simp)).2
    · rw [joinSpace_cons w ws' hws'ne] at hl
      rcases Nat.lt_trichotomy k w.length with hk | hk | hk
      · exfalso
        rw [hl, List.getElem?_append_left hk] at hsp
        have hmem : ' ' ∈ w := by
          have := List.getElem?_eq_some.mp hsp
          obtain ⟨hlt, hget⟩ := this
          rw [← hget]
          exact List.getElem_mem hlt
        exact absurd hmem (hwords w (by simp)).2
      · refine ⟨[w], ws', by simp, hws'ne, by simp, ?_, ?_⟩
        · rw [hl, hk, List.take_left, joinSpace_single]
        · rw [hl, hk]
          have : w ++ ' ' :: joinSpace ws' = (w ++ [' ']) ++ joinSpace ws' := by simp
          rw [this]
          have hlen : w.length + 1 = (w ++ [' ']).length := by simp
          rw [hlen, ← Nat.add_zero (w ++ [' ']).length, List.drop_append 0, List.drop_zero]
      · set k' := k - w.length - 1 with hk'
        have hkk : k = w.length + (k' + 1) := by omega
        have hsp' : (joinSpace ws')[k']? = some ' ' := by
          rw [hl, hkk, List.getElem?_append_right (by omega)] at hsp
          simpa [Nat.add_sub_cancel_left] using hsp
        obtain ⟨ws₁, ws₂, h1ne, h2ne, hsplit, htake, hdrop⟩ :=
          ih (joinSpace ws') k' rfl (fun x hx => hwords x (List.mem_cons_of_mem _ hx)) hsp'
        refine ⟨w :: ws₁, ws₂, by simp, h2ne, by rw [hsplit]; rfl, ?_, ?_⟩
        · rw [hl, hkk]
          have : w ++ ' ' :: joinSpace ws' = (w ++ [' ']) ++ joinSpace ws' := by simp
          rw [this]
          have hlen : w.length + (k' + 1) = (w ++ [' ']).length + k' := by simp; omega
          rw [hlen, List.take_append k']
          rw [joinSpace_cons w ws₁ h1ne]
          rw [← htake]
          simp
        · rw [hl, hkk]
          have : w ++ ' ' :: joinSpace ws' = (w ++ [' ']) ++ joinSpace ws' := by simp
          rw [this]
          have hlen : w.length + (k' + 1) + 1 = (w ++ [' ']).length + (k' + 1) := by
            simp; omega
          rw [hlen, List.drop_append (k' + 1)]
          exact hdrop

theorem skipSpaces_single {text : List Char} {r : Nat} (h : text[r]? = some ' ')
    (h2 : ∀ c, text[r + 1]? = some c → c ≠ ' ') : skipSpaces text r = r + 1 := by
  obtain ⟨hlt, hget⟩ := List.getElem?_eq_some.mp h
  unfold skipSpaces
  rw [List.drop_eq_getElem_cons hlt, hget]
  have hrest : countSpaces (text.drop (r + 1)) = 0 := by
    cases hd : text.drop (r + 1) with
    | nil => rfl
    | cons c rest =>
      have hc : text[r + 1]? = some c := by
        have : (text.drop (r + 1))[0]? = some c := by rw [hd]; simp
        rwa [List.getElem?_drop, Nat.add_zero] at this
      unfold countSpaces
      rw [if_neg]
      exact h2 c hc
  unfold countSpaces
  rw [if_pos rfl, hrest]

theorem take_space_drop {l : List Char} {k : Nat} {c : Char} (h : l[k]? = some c) :
    l.take k ++ c :: l.drop (k + 1) = l := by
  obtain ⟨hlt, hget⟩ := List.getElem?_eq_some.mp h
  conv_rhs => rw [← List.take_append_drop k l]
  rw [List.drop_eq_getElem_cons hlt, hget]

theorem joinSpace_head {w : List Char} {ws : List (List Char)} (hw : w ≠ [])
    {c : Char} (h : (joinSpace (w :: ws))[0]? = some c) : c ∈ w := by
  have hwlen : 0 < w.length := List.length_pos.mpr hw
  cases ws with
  | nil =>
    rw [joinSpace_single] at h
    obtain ⟨hlt, hget⟩ := List.getElem?_eq_some.mp h
    rw [← hget]
    exact List.getElem_mem hlt
  | cons a b =>
    rw [joinSpace_cons w (a :: b) (by simp), List.getElem?_append_left hwlen] at h
    obtain ⟨hlt, hget⟩ := List.getElem?_eq_some.mp h
    rw [← hget]
    exact List.getElem_mem hlt

theorem wrapTextAux_ne_nil {text : List Char} {mcpl pos ml : Nat}
    (hp : pos < text.length) : wrapTextAux text mcpl pos (ml + 1) ≠ [] := by
  rw [wrapTextAux_succ, if_pos hp]
  split_ifs <;> simp

theorem wrapTextAux_roundtrip (text : List Char) (mcpl : Nat) :
    ∀ (ml : Nat) (ws : List (List Char)) (pos : Nat),
      text.drop pos = joinSpace ws →
      (∀ w ∈ ws, w ≠ [] ∧ ' ' ∉ w ∧ w.length ≤ mcpl) →
      text.length - pos ≤ ml →
      joinSpace (wrapTextAux text mcpl pos ml) = text.drop pos := by
  intro ml
  induction ml with
  | zero =>
    intro ws pos _ _ hml
    rw [wrapTextAux_zero, joinSpace_nil, List.drop_eq_nil_of_le (by omega)]
  | succ ml ih =>
    intro ws pos hdrop hwords hml
    by_cases hp : pos < text.length
    · rw [wrapTextAux_succ, if_pos hp]
      by_cases hrem : text.length - pos ≤ mcpl
      · rw [if_pos hrem, joinSpace_single]
      · rw [if_neg hrem]
        have hdropne : text.drop pos ≠ [] := by
          intro hc
          have := congrArg List.length hc
          simp at this
          omega
        obtain ⟨w, ws', rfl⟩ : ∃ w ws', ws = w :: ws' := by
          cases ws with
          | nil => rw [hdrop] at hdropne; exact absurd joinSpace_nil hdropne
          | cons w ws' => exact ⟨w, ws', rfl⟩
        have hwne : w ≠ [] := (hwords w (by simp)).1
        have hwsp : ' ' ∉ w := (hwords w (by simp)).2.1
        have hwlen : w.length ≤ mcpl := (hwords w (by simp)).2.2
        have hws'ne : ws' ≠ [] := by
          intro hc
          subst hc
          rw [joinSpace_single] at hdrop
          have := congrArg List.length hdrop
          simp at this
          omega
        rw [joinSpace_cons w ws' hws'ne] at hdrop
        have hsp0 : text[pos + w.length]? = some ' ' := by
          have h1 : (text.drop pos)[w.length]? = some ' ' := by
            rw [hdrop, List.getElem?_append_right (le_refl _)]
            simp
          rwa [List.getElem?_drop] at h1
        have hfind := findSpaceDown_found text pos (pos + mcpl)
          ⟨pos + w.length, by have := List.length_pos.mpr hwne; omega, by omega, hsp0⟩
        set r := findSpaceDown text pos (pos + mcpl) with hr
        obtain ⟨hr1, hr2, hr3⟩ := hfind
        rw [if_neg (by omega)]
        set k := r - pos with hk
        have hrk : r = pos + k := by omega
        have hkrel : (text.drop pos)[k]? = some ' ' := by
          rw [List.getElem?_drop, ← hrk]
          exact hr3
        obtain ⟨ws₁, ws₂, h1ne, h2ne, hsplit, htake, hdropk⟩ :=
          joinSpace_space_split (w :: ws') (text.drop pos) k
            (by rw [joinSpace_cons w ws' hws'ne]; exact hdrop)
            (fun x hx => ⟨(hwords x hx).1, (hwords x hx).2.1⟩) hkrel
        have hw2 : ∃ w2 rest2, ws₂ = w2 :: rest2 := by
          cases ws₂ with
          | nil => exact absurd rfl h2ne
          | cons a b => exact ⟨a, b, rfl⟩
        obtain ⟨w2, rest2, rfl⟩ := hw2
        have hw2words := fun x hx => hwords x (hsplit ▸ List.mem_append_right ws₁ hx)
        have hw2ne : w2 ≠ [] := (hw2words w2 (by simp)).1
        have hnext : ∀ c, text[r + 1]? = some c → c ≠ ' ' := by
          intro c hc
          have h1 : (text.drop pos)[k + 1]? = some c := by
            rw [List.getElem?_drop]
            rw [show pos + (k + 1) = r + 1 by omega]
            exact hc
          have h2 : ((text.drop pos).drop (k + 1))[0]? = some c := by
            rw [List.getElem?_drop, Nat.add_zero]
            exact h1
          rw [hdropk] at h2
          have hc2 : c ∈ w2 := joinSpace_head hw2ne h2
          exact fun hcsp => (hw2words w2 (by simp)).2.1 (hcsp ▸ hc2)
        have hskip : skipSpaces text r = r + 1 := skipSpaces_single hr3 hnext
        rw [hskip]
        have hdrop2 : text.drop (r + 1) = joinSpace (w2 :: rest2) := by
          have h3 : (text.drop pos).drop (k + 1) = text.drop (pos + (k + 1)) :=
            List.drop_drop (k + 1) pos text
          rw [show r + 1 = pos + (k + 1) by omega, ← h3, hdropk]
        have hdrop2ne : text.drop (r + 1) ≠ [] := by
          rw [hdrop2]
          exact joinSpace_ne_nil (List.mem_cons_self w2 rest2) hw2ne
        have hp2 : r + 1 < text.length := by
          by_contra hc
          push_neg at hc
          exact hdrop2ne (List.drop_eq_nil_of_le hc)
        have hml2 : text.length - (r + 1) ≤ ml := by omega
        have hml1 : 1 ≤ ml := by omega
        have hrestne : wrapTextAux text mcpl (r + 1) ml ≠ [] := by
          obtain ⟨m, rfl⟩ : ∃ m, ml = m + 1 := ⟨ml - 1, by omega⟩
          exact wrapTextAux_ne_nil hp2
        rw [joinSpace_cons _ _ hrestne]
        rw [ih (w2 :: rest2) (r + 1) hdrop2 hw2words hml2]
        have hline : sliceChars text pos r = (text.drop pos).take k := by
          simp only [sliceChars, hk]
        have hdropfin : text.drop (r + 1) = (text.drop pos).drop (k + 1) := by
          have h3 : (text.drop pos).drop (k + 1) = text.drop (pos + (k + 1)) :=
            List.drop_drop (k + 1) pos text
          rw [h3, show pos + (k + 1) = r + 1 by omega]
        rw [hline, hdropfin]
        exact take_space_drop hkrel
    · rw [wrapTextAux_succ, if_neg hp, joinSpace_nil,
        List.drop_eq_nil_of_le (by omega)]

/-- **C3 (amended).** For whitespace-normalized text — the single-space
join of non-empty, space-free words — wrapping and rejoining with single
spaces reproduces the text exactly, provided every word fits within the
per-line character bound (so no forced hard break occurs) and the line
budget cannot be exhausted (no truncation).  A forced hard break splits a
word across lines, so the rejoin inserts a space that was not in the
original; text beyond `maxLines` lines is dropped (see the
counterexample). -/
theorem claim_C3_wrap_roundtrip_amended (ws : List (List Char))
    (mcpl maxLines : Nat) (text : List Char) (htext : text = joinSpace ws)
    (hwords : ∀ w ∈ ws, w ≠ [] ∧ ' ' ∉ w ∧ w.length ≤ mcpl)
    (hml : text.length ≤ maxLines) :
    joinSpace (wrapText text mcpl maxLines) = text := by
  have key := wrapTextAux_roundtrip text mcpl maxLines ws 0
    (by rw [List.drop_zero]; exact htext) hwords (by omega)
  rw [List.drop_zero] at key
  exact key

/-- Counterexample for C3 as stated: ten space-free characters (already
whitespace-normalized) wrapped at 4 chars per line force hard breaks, and
rejoining with single spaces does not reproduce the input. -/
theorem claim_C3_wrap_roundtrip_cex :
    (' ' ∉ "abcdefghij".toList) ∧
      joinSpace (wrapText "abcdefghij".toList 4 6) ≠ "abcdefghij".toList := by
  exact ⟨by decide, by decide⟩

/-- Witness for C3 (amended) on the two-word text "hi you" at width 3. -/
theorem claim_C3_wrap_roundtrip_amended_witness :
    joinSpace (wrapText "hi you".toList 3 10) = "hi you".toList :=
  claim_C3_wrap_roundtrip_amended [['h', 'i'], ['y', 'o', 'u']] 3 10
    "hi you".toList (by decide) (by decide) (by decide)
